import Mathlib

/-!
Verification development for the pydatomic repository (an append-only,
temporally aware fact store in the style of Datomic, layered over a document
store).  The definitions below are a shallow embedding of the Python sources
`src/pydatomic/facts.py`, `src/pydatomic/builtin.py`, `src/pydatomic/core.py`
and `src/pydatomic/util.py`:

* machine integers are modelled as `Int` (values never overflow in the source,
  which uses Python arbitrary-precision ints stored as backend int64);
* fallible Python code (raising `ValueError`, `KeyError`,
  `EntityNotFoundError`) is modelled with `Except Err`;
* the document-store backend (MongoDB) is modelled as the list of documents of
  the `datoms` collection in insertion order; `find` queries become list
  filters, `find_one` with a descending order-by becomes a maximum;
* wall-clock time (`util.now`) is an input parameter;
* the repository file `exceptions.py` is not part of the provided sources
  (only its importers are), so the error taxonomy is modelled from the spec
  (section 7): `ValidationError` corresponds to Python `ValueError`,
  `EntityNotFound` to `EntityNotFoundError`.

Floating point values (`db.type/double`) are outside the modelled value
universe: no verified claim depends on them, and IEEE semantics (NaN
membership in Python sets) are not representable in a shallow embedding of
this kind.
-/

/-- Possible errors raised by the embedded code.  Modelled from the spec:
`exceptions.py` is absent from the provided sources; section 7 of the spec
gives the taxonomy.  `valueError` stands for Python `ValueError` (the spec's
ValidationError / UniquenessViolation / SchemaError, whose names are
"conceptual, not language-specific"), `entityNotFound` for
`EntityNotFoundError`, `keyError` for Python `KeyError`, and `fuel` for
resource exhaustion of the recursion between schema lookup and entity reads
(Python would exhaust the interpreter stack on the corresponding cyclic
schema). -/
inductive Err where
  | valueError : String → Err
  | entityNotFound : String → Err
  | keyError : String → Err
  | fuel : Err
deriving DecidableEq, Repr

/-- The universe of attribute values used by the embedding.  The source stores
booleans, ints (`db.type/long`, `db.type/ref`, `db.type/instant` carried as
milliseconds) and strings (`db.type/keyword`, `db.type/string`,
`db.type/uuid`, `db.type/uri`).  `db.type/double` is not modelled (see the
module comment). -/
inductive Value where
  | vBool : Bool → Value
  | vInt : Int → Value
  | vStr : String → Value
deriving DecidableEq, Repr

/-- A single datom, from `facts.py` (class `Datom`): unique datom id `id`
(the Mongo `_id`), entity `e`, attribute `a`, value `v`, transaction entity id
`tx`, and operation `op` (`true` = assert, `false` = retract). -/
structure Datom where
  id : Int
  e : Int
  a : String
  v : Value
  tx : Int
  op : Bool
deriving DecidableEq, Repr

/-- `Datom.__eq__` from facts.py: two datoms are equal iff their ids are. -/
def datomEq (x y : Datom) : Bool := x.id == y.id

/-- `Datom.__lt__` from facts.py: datom order compares ids. -/
def datomLt (x y : Datom) : Bool := x.id < y.id

/-- `max_default` from core.py: maximum of a sequence with a default for the
empty sequence (the loop keeps the running maximum). -/
def max_default (l : List Int) (d : Int) : Int := l.foldl max d

/-! ## LocalDatoms (core.py, class `LocalDatoms`)

The overlay buffer of locally staged datoms together with its lazily built
caches.  Python dictionaries that are only observed through key lookup
(with absent keys read as `[]`) are modelled as total functions with default
`[]`; the scalar caches `_cache_tx_max`, `_cache_e_max`, `_cache_id_max` are
`Option Int` exactly as in the source (`None` = not built). -/

structure LocalDatoms where
  datoms : List Datom
  cache_tx_max : Option Int
  cache_e_max : Option Int
  cache_id_max : Option Int
  cache_a_index : Option (String → List Datom)
  cache_av_index : Option (String → Value → List Datom)
  cache_e_index : Option (Int → List Datom)

/-- `LocalDatoms.__init__`: a fresh overlay has no caches built. -/
def LocalDatoms.ofList (l : List Datom) : LocalDatoms :=
  ⟨l, none, none, none, none, none, none⟩

/-- The by-attribute grouping that `facts_by_attribute` builds on a cache
miss: the dictionary maps each attribute to the datoms carrying it, in buffer
order; a missing key reads as `[]`. -/
def buildAIndex (l : List Datom) : String → List Datom :=
  fun a => l.filter (fun f => f.a == a)

/-- The by-attribute/value grouping that `facts_by_attribute_value` builds on
a cache miss. -/
def buildAVIndex (l : List Datom) : String → Value → List Datom :=
  fun a v => l.filter (fun f => f.a == a && f.v == v)

/-- The by-entity grouping that `facts_by_entity` builds on a cache miss. -/
def buildEIndex (l : List Datom) : Int → List Datom :=
  fun e => l.filter (fun f => f.e == e)

/-- `LocalDatoms.facts_by_attribute`.  In the source a cache miss also stores
the freshly built index; the stored index is exactly `buildAIndex` of the
buffer, so the lookup result is the same either way. -/
def LocalDatoms.facts_by_attribute (L : LocalDatoms) (a : String) : List Datom :=
  match L.cache_a_index with
  | some f => f a
  | none => buildAIndex L.datoms a

/-- `LocalDatoms.facts_by_attribute_value`. -/
def LocalDatoms.facts_by_attribute_value (L : LocalDatoms) (a : String) (v : Value) :
    List Datom :=
  match L.cache_av_index with
  | some f => f a v
  | none => buildAVIndex L.datoms a v

/-- `LocalDatoms.facts_by_entity`. -/
def LocalDatoms.facts_by_entity (L : LocalDatoms) (e : Int) : List Datom :=
  match L.cache_e_index with
  | some f => f e
  | none => buildEIndex L.datoms e

/-- `LocalDatoms.tx_max`: cached maximum transaction id, computed with
`max_default(..., -1)` on a miss. -/
def LocalDatoms.tx_max (L : LocalDatoms) : Int :=
  match L.cache_tx_max with
  | some c => c
  | none => max_default (L.datoms.map (·.tx)) (-1)

/-- `LocalDatoms.max_key`: only the keys `'e'` and `'_id'` are supported; if
either scalar cache is missing the source recomputes both, then answers from
the (re)computed pair. -/
def LocalDatoms.max_key (L : LocalDatoms) (key : String) : Except Err Int :=
  if key ≠ "e" ∧ key ≠ "_id" then
    .error (.valueError "unsupported key")
  else
    match L.cache_e_max, L.cache_id_max with
    | some me, some mi => .ok (if key = "e" then me else mi)
    | _, _ =>
      let me := max_default (L.datoms.map (·.e)) (-1)
      let mi := max_default (L.datoms.map (·.id)) (-1)
      .ok (if key = "e" then me else mi)

/-- `LocalDatoms.append` (immutable append): a new overlay over the
concatenated buffer, with no caches built (`LocalDatoms.__init__`). -/
def LocalDatoms.append (L : LocalDatoms) (facts : List Datom) : LocalDatoms :=
  LocalDatoms.ofList (L.datoms ++ facts)

/-- `LocalDatoms.append_fact` (in-place append): appends the datom to the
buffer and incrementally patches every cache that is already built, exactly
as the source does (scalar caches are bumped when the new datom exceeds them;
each built index gains the datom under its key, creating the key if absent —
under the function-with-default-`[]` model that is an append at the key). -/
def LocalDatoms.append_fact (L : LocalDatoms) (d : Datom) : LocalDatoms where
  datoms := L.datoms ++ [d]
  cache_tx_max := L.cache_tx_max.map (fun c => if c < d.tx then d.tx else c)
  cache_e_max := L.cache_e_max.map (fun c => if c < d.e then d.e else c)
  cache_id_max := L.cache_id_max.map (fun c => if c < d.id then d.id else c)
  cache_a_index := L.cache_a_index.map
    (fun f a => if a = d.a then f a ++ [d] else f a)
  cache_av_index := L.cache_av_index.map
    (fun f a v => if a = d.a ∧ v = d.v then f a v ++ [d] else f a v)
  cache_e_index := L.cache_e_index.map
    (fun f e => if e = d.e then f e ++ [d] else f e)

/-- `LocalDatoms.as_of`: keep only the datoms with `tx ≤ tx_id` (the result
is a fresh `LocalDatoms`, caches unbuilt). -/
def LocalDatoms.as_of (L : LocalDatoms) (tx_id : Int) : LocalDatoms :=
  LocalDatoms.ofList (L.datoms.filter (fun f => f.tx ≤ tx_id))

/-- A built cache is *valid* when it holds exactly what a rebuild from the
buffer would produce.  Every cache state reachable in the source satisfies
this (caches are built from the buffer on a miss and patched on every
append). -/
def ValidCaches (L : LocalDatoms) : Prop :=
  (∀ c, L.cache_tx_max = some c → c = max_default (L.datoms.map (·.tx)) (-1)) ∧
  (∀ c, L.cache_e_max = some c → c = max_default (L.datoms.map (·.e)) (-1)) ∧
  (∀ c, L.cache_id_max = some c → c = max_default (L.datoms.map (·.id)) (-1)) ∧
  (∀ f, L.cache_a_index = some f → ∀ a, f a = buildAIndex L.datoms a) ∧
  (∀ f, L.cache_av_index = some f → ∀ a v, f a v = buildAVIndex L.datoms a v) ∧
  (∀ f, L.cache_e_index = some f → ∀ e, f e = buildEIndex L.datoms e)

/-! ## Active-fact replay (core.py, `Database._get_active_facts`)

`get` replays an entity's datoms in order: an assert appends the `(a, v)`
pair to the running list of active facts, a retract removes its first
occurrence with Python `list.remove`, which raises `ValueError` when the pair
is absent.  The replay is modelled over the `(a, v, op)` projection of the
datoms; `none` is the raised `ValueError`. -/

/-- One replay step of `_get_active_facts`. -/
def replayStep (A : List (String × Value)) : String × Value × Bool →
    Option (List (String × Value))
  | (a, v, true) => some (A ++ [(a, v)])
  | (a, v, false) => if (a, v) ∈ A then some (A.erase (a, v)) else none

/-- Replay a list of `(a, v, op)` triples starting from the active list `A`. -/
def replayFrom (A : List (String × Value)) :
    List (String × Value × Bool) → Option (List (String × Value))
  | [] => some A
  | f :: rest =>
    match replayStep A f with
    | none => none
    | some A' => replayFrom A' rest

/-- `_get_active_facts` itself: replay from the empty active list. -/
def replayActive (l : List (String × Value × Bool)) : Option (List (String × Value)) :=
  replayFrom [] l

/-- The `(a, v, op)` projection of a datom list, the part of the datoms that
`_get_active_facts` reads. -/
def projOps (l : List Datom) : List (String × Value × Bool) :=
  l.map (fun f => (f.a, f.v, f.op))

/-- Signed assert/retract balance of the pair `p` in a list of operations:
number of asserts of `p` minus number of retracts of `p`.  This is the
spec-side notion used to say when a retract has a matching still-active
assert. -/
def balanceAV (l : List (String × Value × Bool)) (p : String × Value) : Int :=
  l.foldl (fun acc f =>
    if (f.1, f.2.1) = p then (if f.2.2 then acc + 1 else acc - 1) else acc) 0

/-- A list of operations has safe retracts when every retract occurs at a
point where its `(a, v)` pair has positive assert/retract balance, i.e. it
retracts a still-active assert. -/
def SafeRetracts (l : List (String × Value × Bool)) : Prop :=
  ∀ ys a v zs, l = ys ++ (a, v, false) :: zs → 0 < balanceAV ys (a, v)

/-! ## Entity data dictionaries (core.py, `Database._active_facts_to_dict`)

`get` folds the active `(a, v)` list into a Python dict mapping each
attribute to a scalar (cardinality one) or to a list of values (cardinality
many).  The dict is modelled as an association list in insertion order:
updating an existing key keeps its position, a new key is appended — the
observable behaviour of a Python dict. -/

/-- Cardinality of an attribute (builtin.py, enum `Cardinality`). -/
inductive Cardinality where
  | one
  | many
deriving DecidableEq, Repr

/-- Uniqueness of an attribute (builtin.py, enum `Unique`; named `UniqueKind`
here because Mathlib already has a `Unique`). -/
inductive UniqueKind where
  | identity
  | val
deriving DecidableEq, Repr

/-- Value types (builtin.py, enum `ValueType`). -/
inductive ValueType where
  | boolean
  | double
  | instant
  | keyword
  | long
  | ref
  | string
  | uuid
  | uri
deriving DecidableEq, Repr

/-- A dict entry produced by `_active_facts_to_dict`: a scalar for a
cardinality-one attribute, a list of values for a cardinality-many one. -/
inductive AttrVal where
  | one : Value → AttrVal
  | many : List Value → AttrVal
deriving DecidableEq, Repr

/-- Entity data as returned by `Database.get`: attribute to `AttrVal`, in
insertion order. -/
abbrev EntityData := List (String × AttrVal)

/-- Python `d[a]` / `a in d`: look the key up. -/
def dictGet (d : EntityData) (a : String) : Option AttrVal :=
  (d.find? (fun p => p.1 == a)).map (·.2)

/-- Python `d[a] = x`: overwrite in place if the key exists (keeping its
position), append otherwise. -/
def dictSet (d : EntityData) (a : String) (x : AttrVal) : EntityData :=
  if (d.find? (fun p => p.1 == a)).isSome then
    d.map (fun p => if p.1 == a then (a, x) else p)
  else
    d ++ [(a, x)]

/-- Python equality between a dict entry and a scalar value (used by
`validate_cardinality` for cardinality one and by `_lookup_direct`): a scalar
entry compares by value, a list entry is never equal to a scalar. -/
def avEqVal : AttrVal → Value → Bool
  | .one w, v => w == v
  | .many _, _ => false

/-- The `cardinality many` branch of `_active_facts_to_dict`:
`if a not in d: d[a] = []` then `d[a].append(v)`.  Appending to a scalar
entry cannot happen when every occurrence of an attribute resolves to the
same definition (as in the source, where the definition is read from the
database); it is modelled as the error Python would raise. -/
def dictPushMany (d : EntityData) (a : String) (v : Value) : Except Err EntityData :=
  match dictGet d a with
  | none => .ok (d ++ [(a, AttrVal.many [v])])
  | some (.many vs) => .ok (dictSet d a (.many (vs ++ [v])))
  | some (.one _) => .error (.valueError "cannot append to a scalar entry")

/-! ## Attribute definitions (builtin.py, class `Attr`) -/

/-- An attribute definition (builtin.py, pydantic model `Attr`). -/
structure Attr where
  ident : String
  value_type : ValueType
  cardinality : Cardinality
  unique : Option UniqueKind := none
  doc : String := ""
  restricted_values : Option (List String) := none
deriving DecidableEq, Repr

/-- `Attr.is_unique`.  Modelled from the spec: core.py (`Database._lookup`)
calls `attr_def.is_unique()`, but no such method exists in the provided
builtin.py (see the C1 analysis of the interface divergence between the two
files); spec section 4.E states the check as `attribute.unique ∈ {identity,
value}`. -/
def Attr.is_unique (a : Attr) : Bool := a.unique.isSome

/-- `ValueType.values()`: the stored names of the value types, from the
`ValueTypeDef` constants in builtin.py. -/
def ValueType.valueNames : List String :=
  ["db.type/boolean", "db.type/double", "db.type/instant", "db.type/keyword",
   "db.type/long", "db.type/ref", "db.type/string", "db.type/uuid", "db.type/uri"]

/-- `ValueType.to_dict()`: stored name to value type. -/
def ValueType.ofName (s : String) : Option ValueType :=
  if s = "db.type/boolean" then some .boolean
  else if s = "db.type/double" then some .double
  else if s = "db.type/instant" then some .instant
  else if s = "db.type/keyword" then some .keyword
  else if s = "db.type/long" then some .long
  else if s = "db.type/ref" then some .ref
  else if s = "db.type/string" then some .string
  else if s = "db.type/uuid" then some .uuid
  else if s = "db.type/uri" then some .uri
  else none

/-- `Cardinality.values()`. -/
def Cardinality.valueNames : List String :=
  ["db.cardinality/one", "db.cardinality/many"]

/-- Parse a stored cardinality name (pydantic `Cardinality(...)`). -/
def Cardinality.ofName (s : String) : Option Cardinality :=
  if s = "db.cardinality/one" then some .one
  else if s = "db.cardinality/many" then some .many
  else none

/-- `Unique.values()`. -/
def UniqueKind.valueNames : List String :=
  ["db.unique/identity", "db.unique/value"]

/-- Parse a stored uniqueness name (pydantic `Unique(...)`). -/
def UniqueKind.ofName (s : String) : Option UniqueKind :=
  if s = "db.unique/identity" then some .identity
  else if s = "db.unique/value" then some .val
  else none

/-- The builtin attributes (module constant `builtin_attr` in builtin.py). -/
def builtin_attr : List Attr :=
  [{ ident := "db/txInstant", value_type := .instant, cardinality := .one },
   { ident := "db/ident", value_type := .keyword, cardinality := .one,
     unique := some .identity },
   { ident := "db/valueType", value_type := .keyword, cardinality := .one,
     restricted_values := some ValueType.valueNames },
   { ident := "db/cardinality", value_type := .keyword, cardinality := .one,
     restricted_values := some Cardinality.valueNames },
   { ident := "db/unique", value_type := .keyword, cardinality := .one,
     restricted_values := some UniqueKind.valueNames },
   { ident := "db/doc", value_type := .string, cardinality := .one }]

/-- `builtin_attr_dict`: builtin attributes keyed by ident. -/
def builtin_attr_dict (name : String) : Option Attr :=
  builtin_attr.find? (fun a => a.ident == name)

/-! ## Database values (core.py, classes `RemoteDatabase` and `Database`)

The backend `datoms` collection is modelled as a `List Datom` in insertion
order.  A `RemoteDatabase` narrows it to `tx ≤ tx_max`; every remote query in
the source carries that filter.  The `Database` overlay `_with_datoms` is a
`LocalDatoms` in the source; here the `Database`-level code reads the plain
buffer — the C9 theorem establishes that the `LocalDatoms` caches are
observationally equal to the buffer reads, and the `Database`-level lazy
indices (`_attr_index`, `_attr_val_index`, `_entity_index`,
`_attr_def_cache`) are per-miss memoizations of exactly the reads below
(kept coherent by `_apply_datom`, which patches or evicts them), so they are
not modelled separately. -/

structure RemoteDatabase where
  log : List Datom
  tx_max : Int
deriving Repr

/-- The datoms a remote snapshot exposes: every query in the source filters
`tx ≤ tx_max`. -/
def RemoteDatabase.facts (r : RemoteDatabase) : List Datom :=
  r.log.filter (fun d => d.tx ≤ r.tx_max)

/-- `RemoteDatabase._e_max`: highest entity id visible in the snapshot
(`find_one` ordered by `e` descending), `-1` when empty. -/
def RemoteDatabase.e_max (r : RemoteDatabase) : Int :=
  max_default (r.facts.map (·.e)) (-1)

structure Db where
  remote : Option RemoteDatabase
  tx_min : Int := -1
  with_datoms : List Datom := []
  full_history : Bool := false
deriving Repr

/-- `Database._remote_tx_max`. -/
def Db.remote_tx_max (db : Db) : Int :=
  match db.remote with
  | none => -1
  | some r => r.tx_max

/-- The remote datoms visible to this database value (empty for a virtual
database with no remote). -/
def Db.remoteFacts (db : Db) : List Datom :=
  match db.remote with
  | none => []
  | some r => r.facts

/-- `Database._tx_max`: the overlay's `tx_max` when the overlay is nonempty,
else the remote's. -/
def Db.tx_max (db : Db) : Int :=
  if db.with_datoms.length > 0 then
    max_default (db.with_datoms.map (·.tx)) (-1)
  else db.remote_tx_max

/-- `Database._get_max_key`, with the string key replaced by the field it
selects: maximum of the key over the remote snapshot (`find_one` ordered
descending over `tx ≤ tx_max`), combined with the overlay's `max_key`. -/
def Db.get_max_key (db : Db) (f : Datom → Int) : Int :=
  let v : Int :=
    match db.remote with
    | none => -1
    | some r => max_default (r.facts.map f) (-1)
  let vf := max_default (db.with_datoms.map f) (-1)
  if v < vf then vf else v

/-- `Database._get_max_entity_id`. -/
def Db.get_max_entity_id (db : Db) : Int := db.get_max_key (·.e)

/-- `Database._get_max_id`. -/
def Db.get_max_id (db : Db) : Int := db.get_max_key (·.id)

/-- `Database.entities()`: `range(0, max_e + 1)`. -/
def Db.entities (db : Db) : List Int :=
  (List.range (db.get_max_entity_id + 1).toNat).map (fun (n : Nat) => (n : Int))

/-- All historic datoms of one entity (`Database.facts` via
`_facts_multi_entity` for a single entity): remote datoms with that entity
and `tx ≤ tx_max`, then the overlay's datoms with that entity, in order. -/
def Db.entityFacts (db : Db) (e : Int) : List Datom :=
  db.remoteFacts.filter (fun d => d.e == e) ++
    db.with_datoms.filter (fun d => d.e == e)

/-- `Database._get_attr_index(attribute, value)` for a concrete value:
remote datoms with the `(a, v)` pair and `tx ≤ tx_max`, then the overlay's
(`facts_by_attribute_value`). -/
def Db.attrValFacts (db : Db) (a : String) (v : Value) : List Datom :=
  db.remoteFacts.filter (fun d => d.a == a && d.v == v) ++
    db.with_datoms.filter (fun d => d.a == a && d.v == v)

/-- `Database._get_attr_index(attribute, None)`: all datoms with the
attribute. -/
def Db.attrFacts (db : Db) (a : String) : List Datom :=
  db.remoteFacts.filter (fun d => d.a == a) ++
    db.with_datoms.filter (fun d => d.a == a)

/-- An attribute resolver: the behaviour of `Database._get_attr_def` on a
fixed database value, passed explicitly to the functions that consult the
schema (in the source they call `self._get_attr_def` / `db.get`).  The
closed-system resolver is `getAttrDefF` below. -/
abbrev Gad := String → Except Err Attr

/-- `Database._active_facts_to_dict`: fold the active `(a, v)` pairs into the
entity dict, consulting the attribute definition of each pair for its
cardinality. -/
def activeToDict (gad : Gad) : List (String × Value) → EntityData → Except Err EntityData
  | [], d => .ok d
  | (a, v) :: rest, d =>
    match gad a with
    | .error err => .error err
    | .ok attr =>
      match attr.cardinality with
      | .one => activeToDict gad rest (dictSet d a (.one v))
      | .many =>
        match dictPushMany d a v with
        | .error err => .error err
        | .ok d' => activeToDict gad rest d'

/-- `Database._get_from_facts`: replay then fold into a dict. -/
def getFromFacts (gad : Gad) (fs : List Datom) : Except Err EntityData :=
  match replayActive (projOps fs) with
  | none => .error (.valueError "list remove: x not in list")
  | some A => activeToDict gad A []

/-- `Database.get` for an integer entity id (lookup-ref arguments resolve
through `lookup` first): negative ids read as the empty fact list. -/
def getD (gad : Gad) (db : Db) (e : Int) : Except Err EntityData :=
  if e < 0 then getFromFacts gad []
  else getFromFacts gad (db.entityFacts e)

/-- The candidate entities of `_find_candidates(a, v)`: the entities of the
datoms carrying the `(a, v)` pair.  The source iterates a Python set, whose
order is unspecified; first-occurrence order is used here (the callers only
depend on membership). -/
def candidateEntities (db : Db) (a : String) (v : Value) : List Int :=
  ((db.attrValFacts a v).map (·.e)).dedup

/-- The loop of `Database._lookup_direct` over the candidates of
`_find_candidates(attribute, value, return_all_attributes=False)`: each
candidate entity's dict is built from its `(a, v)` datoms only, and the
first candidate whose dict holds `attribute == value` is returned. -/
def lookup_direct_go (gad : Gad) (attrName : String) (value : Value)
    (cds : List Datom) : List Int → Except Err (Option Int)
  | [] => .ok none
  | e :: rest =>
    match getFromFacts gad (cds.filter (fun f => f.e == e)) with
    | .error err => .error err
    | .ok d =>
      match dictGet d attrName with
      | some av =>
        if avEqVal av value then .ok (some e)
        else lookup_direct_go gad attrName value cds rest
      | none => lookup_direct_go gad attrName value cds rest

/-- `Database._lookup_direct`. -/
def lookup_direct (gad : Gad) (db : Db) (a : String) (v : Value) :
    Except Err (Option Int) :=
  lookup_direct_go gad a v (db.attrValFacts a v) (candidateEntities db a v)

/-- `Database._lookup`: requires a unique attribute, then delegates to
`_lookup_direct`; no hit raises `EntityNotFoundError`. -/
def lookup (gad : Gad) (db : Db) (a : String) (v : Value) : Except Err Int :=
  match gad a with
  | .error err => .error err
  | .ok attr_def =>
    if attr_def.is_unique then
      match lookup_direct gad db a v with
      | .error err => .error err
      | .ok (some e) => .ok e
      | .ok none => .error (.entityNotFound "no entity found with attribute set to value")
    else .error (.valueError "lookup failed because attribute is not unique")

/-- `Attr.from_dict`: reconstruct an attribute definition from a stored
entity map.  `db/ident` is read first (Python `KeyError` if absent), the
required keys `db/valueType` and `db/cardinality` are checked, the stored
value-type name is looked up (`KeyError` on an unknown name), and the pydantic
constructor coerces the cardinality/uniqueness names to their enums and runs
the `unique_cardinality` root validator (unique requires cardinality one).
The stored values of these builtin cardinality-one keyword attributes are
scalar strings; any other shape fails the pydantic coercion. -/
def Attr.from_dict (dct : EntityData) : Except Err Attr :=
  match dictGet dct "db/ident" with
  | none => .error (.keyError "db/ident")
  | some nameAv =>
    if (dictGet dct "db/valueType").isNone then
      .error (.valueError "required attribute db/valueType is not defined")
    else if (dictGet dct "db/cardinality").isNone then
      .error (.valueError "required attribute db/cardinality is not defined")
    else
      match nameAv, dictGet dct "db/valueType", dictGet dct "db/cardinality" with
      | .one (.vStr name), some (.one (.vStr vtName)), some (.one (.vStr cName)) =>
        match ValueType.ofName vtName with
        | none => .error (.keyError vtName)
        | some vt =>
          match Cardinality.ofName cName with
          | none => .error (.valueError "invalid cardinality value")
          | some card =>
            let docRes : Except Err String :=
              match dictGet dct "db/doc" with
              | none => .ok ""
              | some (.one (.vStr s)) => .ok s
              | some _ => .error (.valueError "invalid doc value")
            match docRes with
            | .error err => .error err
            | .ok doc =>
              match dictGet dct "db/unique" with
              | none =>
                .ok { ident := name, value_type := vt, cardinality := card,
                      unique := none, doc := doc }
              | some (.one (.vStr uName)) =>
                match UniqueKind.ofName uName with
                | none => .error (.valueError "invalid uniqueness value")
                | some u =>
                  if card = .one then
                    .ok { ident := name, value_type := vt, cardinality := card,
                          unique := some u, doc := doc }
                  else
                    .error (.valueError "attribute is set to be unique, so it must have cardinality one")
              | some _ => .error (.valueError "invalid uniqueness value")
      | _, _, _ => .error (.valueError "invalid attribute entity value")

/-- `Database._get_attr_def`, tying the resolver knot with a fuel parameter:
builtins answer directly; a user attribute is found by a `db/ident` lookup
and reconstructed from its entity data with `Attr.from_dict`; a failed lookup
becomes `ValueError` ("attribute ... is not defined").  The fuel bounds the
recursion depth between schema lookup and entity reads (two levels suffice
for acyclic schemas; Python overflows its stack on cyclic ones).  The
source's `_attr_def_cache` is a memoization of this read, invalidated by
`_apply_datom` whenever a datom touches a cached defining entity. -/
def getAttrDefF : Nat → Db → String → Except Err Attr
  | 0, _, _ => .error .fuel
  | n + 1, db, name =>
    match builtin_attr_dict name with
    | some a => .ok a
    | none =>
      match lookup (getAttrDefF n db) db "db/ident" (.vStr name) with
      | .ok e =>
        match getD (getAttrDefF n db) db e with
        | .ok dct => Attr.from_dict dct
        | .error err => .error err
      | .error (.entityNotFound _) => .error (.valueError "attribute is not defined")
      | .error err => .error err

/-! ## Value validation (builtin.py) -/

/-- A character of a keyword identifier after the first: `[a-zA-Z0-9-_]`. -/
def isIdentChar (c : Char) : Bool :=
  c.isAlpha || c.isDigit || c = '-' || c = '_'

/-- A keyword identifier: `[a-zA-Z][a-zA-Z0-9-_]*`. -/
def isIdentStr (s : String) : Bool :=
  match s.toList with
  | [] => false
  | c :: rest => c.isAlpha && rest.all isIdentChar

/-- `validate_keyword` from builtin.py as a recognizer: an optional
dot-separated namespace of identifiers followed by `/` and an identifier
(the regex `^((ns)/)?identifier$`; identifiers cannot contain `/` or `.`,
so splitting is faithful). -/
def validKeyword (s : String) : Bool :=
  match s.splitOn "/" with
  | [i] => isIdentStr i
  | [ns, i] => (ns.splitOn ".").all isIdentStr && isIdentStr i
  | _ => false

/-- A hexadecimal digit (Python `int(_, 16)` accepts both cases). -/
def isHexDigit (c : Char) : Bool :=
  c.isDigit || ('a' ≤ c && c ≤ 'f') || ('A' ≤ c && c ≤ 'F')

/-- The acceptance condition of the Python standard library constructor
`uuid.UUID(hex)` (an external collaborator, embedded per its documented
normalization): drop every occurrence of `urn:` and `uuid:`, strip curly
braces from both ends, drop dashes, and require exactly 32 hex digits. -/
def pyUuidParses (s : String) : Bool :=
  let isBrace : Char → Bool := fun c => c = Char.ofNat 123 || c = Char.ofNat 125
  let t := ((s.replace "urn:" "").replace "uuid:" "").toList
  let t := t.dropWhile isBrace
  let t := (t.reverse.dropWhile isBrace).reverse
  let t := t.filter (fun c => c ≠ '-')
  t.length == 32 && t.all isHexDigit

/-- `is_valid_lowercase_uuid` from builtin.py: the string equals its
lowercase form and parses as a UUID. -/
def is_valid_lowercase_uuid (s : String) : Bool :=
  (s == s.toLower) && pyUuidParses s

/-- `rfc3986.is_valid_uri`, an external third-party collaborator that is not
code of this repository.  No claim of this development depends on URI
validity, so it is modelled as the trivially true predicate. -/
def is_valid_uri (_ : String) : Bool := true

/-- Python `isinstance(value, python_type)` for the per-type shape check of
`ValueType.validate_type`.  Note Python's `bool` is a subclass of `int`, so a
boolean passes the `int`-typed checks (`instant`, `long`, `ref`); `double`
values lie outside the modelled universe, so nothing passes its check. -/
def pyIsInstance : ValueType → Value → Bool
  | .boolean, .vBool _ => true
  | .boolean, _ => false
  | .double, _ => false
  | .instant, .vInt _ => true
  | .instant, .vBool _ => true
  | .instant, _ => false
  | .long, .vInt _ => true
  | .long, .vBool _ => true
  | .long, _ => false
  | .ref, .vInt _ => true
  | .ref, .vBool _ => true
  | .ref, _ => false
  | .keyword, .vStr _ => true
  | .keyword, _ => false
  | .string, .vStr _ => true
  | .string, _ => false
  | .uuid, .vStr _ => true
  | .uuid, _ => false
  | .uri, .vStr _ => true
  | .uri, _ => false

/-- A value read as a Python int (booleans coerce: `True == 1`,
`False == 0`). -/
def valueAsInt : Value → Option Int
  | .vInt n => some n
  | .vBool b => some (if b then 1 else 0)
  | .vStr _ => none

/-- `ValueType.validate_type` from builtin.py: shape check against the
Python type, then the per-type semantic check — keyword grammar, ref
resolvability (`db.get(value)` must be non-empty), lowercase-UUID, URI.
The attribute name parameter of the source only feeds error messages and is
dropped. -/
def ValueType.validate_type (vt : ValueType) (gad : Gad) (value : Value) (db : Db) :
    Except Err Unit :=
  if pyIsInstance vt value = false then
    .error (.valueError "value has wrong type for the attribute value type")
  else
    match vt, value with
    | .keyword, .vStr s =>
      if validKeyword s then .ok ()
      else .error (.valueError "the value is not a valid keyword value")
    | .ref, v =>
      match valueAsInt v with
      | some n =>
        match getD gad db n with
        | .ok d =>
          if d = [] then
            .error (.valueError "entity does not exist: a reference must point to a valid entity that has at least one attribute set")
          else .ok ()
        | .error err => .error err
      | none => .error (.valueError "unreachable: the shape check admitted a non-integer ref")
    | .uuid, .vStr s =>
      if is_valid_lowercase_uuid s then .ok ()
      else .error (.valueError "the value is not a valid lowercase UUID")
    | .uri, .vStr s =>
      if is_valid_uri s then .ok ()
      else .error (.valueError "the value is not a valid URI")
    | _, _ => .ok ()

/-- `Attr.validate_restricted_values` from builtin.py: when the attribute
restricts its values, the value must be a string among them. -/
def Attr.validate_restricted_values (self : Attr) (value : Value) : Except Err Unit :=
  match self.restricted_values with
  | none => .ok ()
  | some rs =>
    match value with
    | .vStr s =>
      if rs.contains s then .ok ()
      else .error (.valueError "the attribute value must be one of the restricted values")
    | _ => .error (.valueError "the attribute value must be one of the restricted values")

/-- `Attr.validate_value(self, value, db)` from builtin.py: type/shape check
(including ref resolvability) then restricted-values membership. -/
def Attr.validate_value (self : Attr) (gad : Gad) (value : Value) (db : Db) :
    Except Err Unit :=
  match self.value_type.validate_type gad value db with
  | .error err => .error err
  | .ok () => self.validate_restricted_values value

/-- `Attr.validate_cardinality(self, e, value, db, op)` from builtin.py:
reads `data = db.get(e)` and checks the assert/retract transition against
the attribute's cardinality.  A scalar entry under a cardinality-many check
(impossible when the data was shaped by the same attribute definition) is
the `TypeError` Python would raise on `set(scalar)`. -/
def Attr.validate_cardinality (self : Attr) (gad : Gad) (e : Int) (value : Value)
    (db : Db) (op : Bool) : Except Err Unit :=
  match getD gad db e with
  | .error err => .error err
  | .ok data =>
    if op then
      match self.cardinality with
      | .one =>
        if (dictGet data self.ident).isSome then
          .error (.valueError "cannot add attribute: a value is already set and cardinality is one")
        else .ok ()
      | .many =>
        match dictGet data self.ident with
        | none => .ok ()
        | some (.many vs) =>
          if vs.contains value then
            .error (.valueError "cannot add attribute: the value is already present and cardinality is many")
          else .ok ()
        | some (.one _) =>
          .error (.valueError "type error: scalar entry under a cardinality-many attribute")
    else
      match self.cardinality with
      | .one =>
        match dictGet data self.ident with
        | some av =>
          if avEqVal av value then .ok ()
          else .error (.valueError "cannot remove attribute: the value is not set and cardinality is one")
        | none =>
          .error (.valueError "cannot remove attribute: the value is not set and cardinality is one")
      | .many =>
        match dictGet data self.ident with
        | some (.many vs) =>
          if vs.contains value then .ok ()
          else .error (.valueError "cannot remove attribute: the value is not set and cardinality is many")
        | some (.one _) =>
          .error (.valueError "type error: scalar entry under a cardinality-many attribute")
        | none =>
          .error (.valueError "cannot remove attribute: the value is not set and cardinality is many")

/-- `Attr.validate_uniqueness(self, value, db, op)` from builtin.py: on an
assert of a unique attribute, a successful `db._lookup(ident, value)` —
meaning some entity currently holds the pair — raises; only
`EntityNotFoundError` is caught as success, any other lookup error
propagates. -/
def Attr.validate_uniqueness (self : Attr) (gad : Gad) (value : Value) (db : Db)
    (op : Bool) : Except Err Unit :=
  if op && self.unique.isSome then
    match lookup gad db self.ident value with
    | .ok _ =>
      .error (.valueError "cannot set unique attribute: this value is already assigned to an entity")
    | .error (.entityNotFound _) => .ok ()
    | .error err => .error err
  else .ok ()

/-- `Database._validate_datom` from core.py: resolve the attribute
definition, then validate the value, the reference, the cardinality
transition (against `db.get(e)`) and the uniqueness, in that order, and
return the attribute definition.

Interface caveat (the subject of claim C1): core.py invokes the validators as
`validate_value(datom.v)`, `validate_ref(datom.v, self)`,
`validate_cardinality(datom.e, datom.v, datom.op, existing_value)` and
`validate_uniqueness(datom.v, datom.op, self)`, but the provided builtin.py
defines `validate_value(value, db)`, no `validate_ref` at all,
`validate_cardinality(e, value, db, op)` and
`validate_uniqueness(value, db, op)`.  This definition performs, in core.py's
order, the checks that builtin.py's validator bodies implement (ref
validation is the ref branch inside `ValueType.validate_type`), which is the
composite both files' semantics describe and the spec states. -/
def validate_datom (gad : Gad) (db : Db) (datom : Datom) : Except Err Attr :=
  match gad datom.a with
  | .error err => .error err
  | .ok attr_def =>
    match attr_def.validate_value gad datom.v db with
    | .error err => .error err
    | .ok () =>
      match attr_def.validate_cardinality gad datom.e datom.v db datom.op with
      | .error err => .error err
      | .ok () =>
        match attr_def.validate_uniqueness gad datom.v db datom.op with
        | .error err => .error err
        | .ok () => .ok attr_def

/-! ## Sorted history (core.py, `Database.all_facts`) -/

/-- The sort relation of Python `sorted` over datoms: `x` may precede `y`
when `y < x` fails under `Datom.__lt__`. -/
def pyLe (x y : Datom) : Prop := datomLt y x = false

instance : DecidableRel pyLe := fun x y => by unfold pyLe; infer_instance

instance : IsTotal Datom pyLe where
  total x y := by
    unfold pyLe datomLt
    rcases le_total x.id y.id with h | h
    · exact Or.inl (by simpa using not_lt.mpr h)
    · exact Or.inr (by simpa using not_lt.mpr h)

instance : IsTrans Datom pyLe where
  trans x y z hxy hyz := by
    unfold pyLe datomLt at *
    simp only [decide_eq_false_iff_not, not_lt] at *
    exact hxy.trans hyz

/-- The unsorted fact collection of `Database._facts_multi_entity` applied to
`entities()`: one backend query for all entities (filtered by entity
membership and `tx ≤ tx_max`, skipped when no requested entity can be on the
remote), followed by the overlay datoms of each entity in turn.  The source
iterates a Python set of entities; the `entities()` list order is used here,
and `all_facts` sorts the result anyway. -/
def Db.allFactsPre (db : Db) : List Datom :=
  let es := db.entities
  let remotePart :=
    match db.remote with
    | none => []
    | some r =>
      if es.any (fun e => e ≤ r.e_max) then
        r.facts.filter (fun d => es.contains d.e)
      else []
  remotePart ++ es.flatMap (fun e => db.with_datoms.filter (fun d => d.e == e))

/-- `Database.all_facts`: every historic datom, sorted.  Python `sorted` is a
stable sort by `Datom.__lt__`; it is modelled by insertion sort with the
complementary non-strict relation `pyLe`, which agrees with any stable
lt-sort on lists with pairwise distinct ids (an invariant of every reachable
database value, and a hypothesis of the theorems below). -/
def Db.all_facts (db : Db) : List Datom :=
  db.allFactsPre.insertionSort pyLe

/-- `Database.as_of`: refuse future transaction ids; narrow the overlay when
the cut is above the remote snapshot, otherwise drop the overlay and narrow
the remote snapshot. -/
def Db.as_of (db : Db) (tx_id : Int) : Except Err Db :=
  if db.tx_max < tx_id then
    .error (.valueError "cannot travel into the future")
  else if db.remote_tx_max < tx_id then
    .ok { remote := db.remote, tx_min := -1,
          with_datoms := db.with_datoms.filter (fun f => f.tx ≤ tx_id),
          full_history := false }
  else
    .ok { remote := db.remote.map (fun r => { log := r.log, tx_max := tx_id }),
          tx_min := -1, with_datoms := [], full_history := false }

/-! ## Transaction assembly (core.py, `Database._transaction_data`) -/

/-- An entity reference in a staged fact (facts.py): an existing integer id,
a named temporary id, an anonymous new entity (`None`; `add_set` with `None`
pre-generates a fresh UUID string, which behaves like any other unused
name), or a lookup ref `[attribute, value]`. -/
inductive EntityRef where
  | eint : Int → EntityRef
  | ename : String → EntityRef
  | enone : EntityRef
  | elookup : String → Value → EntityRef
deriving DecidableEq, Repr

/-- A staged fact, one `(entity, attribute, value, op)` tuple of
`Facts._facts`.  `Facts.add` appends with `op = true`, `Facts.remove` with
`op = false`, `Facts.replace` appends the retract then the assert.  (Named
`StagedFact` because `Fact` already exists in the ambient library.) -/
structure StagedFact where
  entity : EntityRef
  attr : String
  value : Value
  op : Bool
deriving DecidableEq, Repr

/-- Lookup in the temp-id map (a Python dict observed only through `in` and
indexing). -/
def lookupName (names : List (String × Int)) (s : String) : Option Int :=
  (names.find? (fun p => p.1 == s)).map (·.2)

/-- `Database._resolve_entity`: integer ids must already be assigned
(`e ≤ current_max_entity`); lookup refs resolve on the pre-transaction
database; named temp-ids allocate a fresh entity on first use and reuse the
binding afterwards; `None` always allocates a fresh entity. -/
def resolve_entity (gad : Gad) (db : Db) :
    EntityRef → List (String × Int) → Int → Int →
    Except Err (Int × List (String × Int) × Int)
  | .eint nn, names, max_entity, cur =>
    if cur < nn then .error (.valueError "entity is not assigned yet")
    else .ok (nn, names, max_entity)
  | .elookup a v, names, max_entity, _ =>
    match lookup gad db a v with
    | .ok e => .ok (e, names, max_entity)
    | .error err => .error err
  | .ename s, names, max_entity, _ =>
    match lookupName names s with
    | some e => .ok (e, names, max_entity)
    | none => .ok (max_entity + 1, names ++ [(s, max_entity + 1)], max_entity + 1)
  | .enone, names, max_entity, _ => .ok (max_entity + 1, names, max_entity + 1)

/-- The enumerated loop of `_transaction_data`: resolve each staged fact's
entity and emit the datom with id `max_id + i + 1` and the shared `tx`. -/
def transaction_data_go (gad : Gad) (db : Db) :
    List StagedFact → Nat → List (String × Int) → Int → Int → Int → Int →
    Except Err (List Datom × List (String × Int))
  | [], _, names, _, _, _, _ => .ok ([], names)
  | t :: rest, i, names, max_entity, cur, tx, max_id =>
    match resolve_entity gad db t.entity names max_entity cur with
    | .error err => .error err
    | .ok (e, names', max_entity') =>
      match transaction_data_go gad db rest (i + 1) names' max_entity' cur tx max_id with
      | .error err => .error err
      | .ok (ds, names'') =>
        .ok (⟨max_id + (i : Int) + 1, e, t.attr, t.value, tx, t.op⟩ :: ds, names'')

/-- `Database._transaction_data`: allocate the transaction entity
`tx = max_e + 1` first and bind `datomic.tx` to it, prepend the synthetic
`db/txInstant` fact carrying the wall-clock time, then run the loop. -/
def Db.transaction_data (gad : Gad) (db : Db) (time : Int) (facts : List StagedFact) :
    Except Err (List Datom × List (String × Int)) :=
  let max_entity := db.get_max_entity_id
  let max_id := db.get_max_id
  let cur := max_entity
  let tx := max_entity + 1
  let f : List StagedFact :=
    { entity := .ename "datomic.tx", attr := "db/txInstant",
      value := .vInt time, op := true } :: facts
  transaction_data_go gad db f 0 [("datomic.tx", tx)] (max_entity + 1) cur tx max_id

/-! ## Incremental validation and transact (core.py) -/

/-- `ValueType.mongo_encode` composed with `ValueType.mongo_decode` is the
identity on the modelled values (int64 wrapping and the instant/datetime
conversion are inverse bijections), so backend documents are modelled as the
datoms themselves and the encoding step is the identity. -/
def mongo_encode (d : Datom) : Datom := d

/-- `Database._applicative_copy`: a fresh database value over a copied
overlay (`with_datoms.append([])`), sharing the remote snapshot. -/
def Db.applicative_copy (db : Db) : Db :=
  { remote := db.remote, tx_min := -1, with_datoms := db.with_datoms ++ [],
    full_history := false }

/-- `Database._apply_datom`: append the datom to the overlay in place.  The
source also patches the lazy `Database` caches and evicts the cached
attribute definition whose defining entity the datom touches; the caches are
memoizations of the uncached reads modelled here (see the `Db` comment). -/
def Db.apply_datom (db : Db) (d : Datom) : Db :=
  { db with with_datoms := db.with_datoms ++ [d] }

/-- The loop of `Database._validate_transaction`: validate each candidate
datom against the evolving database, apply it, and append its encoding to
the write batch.  The schema of step `k` is the evolving database's own
(`getAttrDefF n` of the database after `k` datoms). -/
def validate_transaction_go (n : Nat) : Db → List Datom → Except Err (List Datom)
  | _, [] => .ok []
  | db, d :: rest =>
    match validate_datom (getAttrDefF n db) db d with
    | .error err => .error err
    | .ok _attr_def =>
      match validate_transaction_go n (db.apply_datom d) rest with
      | .error err => .error err
      | .ok lst => .ok (mongo_encode d :: lst)

/-- `Database._validate_transaction`: run the loop on an applicative copy. -/
def Db.validate_transaction (n : Nat) (db : Db) (tx_data : List Datom) :
    Except Err (List Datom) :=
  validate_transaction_go n db.applicative_copy tx_data

/-- `Connection.db()`: ask the backend for the highest `tx` (`find_one`
ordered by `tx` descending, `-1` when empty) and wrap the collection in a
remote snapshot at that bound, with an empty overlay. -/
def connDb (state : List Datom) : Db :=
  { remote := some { log := state, tx_max := max_default (state.map (·.tx)) (-1) },
    tx_min := -1, with_datoms := [], full_history := false }

/-- `Connection.transact`: fetch the current database value, assemble the
transaction data, validate the whole batch, and only then issue the single
bulk write; the first component is the backend collection after the call
(unchanged whenever any stage raises). -/
def transact (n : Nat) (state : List Datom) (time : Int) (facts : List StagedFact) :
    List Datom × Except Err (Db × Db × List Datom × List (String × Int)) :=
  let db_before := connDb state
  match db_before.transaction_data (getAttrDefF n db_before) time facts with
  | .error err => (state, .error err)
  | .ok (tx_data, temp_ids) =>
    match db_before.validate_transaction n tx_data with
    | .error err => (state, .error err)
    | .ok lst =>
      let state' := state ++ lst
      (state', .ok (db_before, connDb state', tx_data, temp_ids))

/-! ## The validator interface of the two source files (claim C1)

core.py's `Database._validate_datom` and `Database._lookup` invoke the
attribute definition through one interface; the `Attr` class in the provided
builtin.py defines another.  The two tables below record, straight off the
source text, the parameter lists (after `self`) that builtin.py defines and
the argument lists (after the receiver) that core.py passes. -/

/-- The validator methods of `class Attr` in src/pydatomic/builtin.py with
their parameter names after `self`, in definition order. -/
def builtin_attr_method_params : List (String × List String) :=
  [("validate_value", ["value", "db"]),
   ("validate_restricted_values", ["value"]),
   ("validate_cardinality", ["e", "value", "db", "op"]),
   ("validate_uniqueness", ["value", "db", "op"])]

/-- The method invocations on `attr_def` in core.py's
`Database._validate_datom` (lines 347–352) with the argument expressions
passed, in call order. -/
def validate_datom_calls : List (String × List String) :=
  [("validate_value", ["datom.v"]),
   ("validate_ref", ["datom.v", "self"]),
   ("validate_cardinality", ["datom.e", "datom.v", "datom.op", "existing_value"]),
   ("validate_uniqueness", ["datom.v", "datom.op", "self"])]

/-- Look a method up in builtin.py's `Attr` interface. -/
def attrMethodParams (m : String) : Option (List String) :=
  (builtin_attr_method_params.find? (fun p => p.1 == m)).map (·.2)

/-! ## Active pairs at the claim level (claim C5) -/

/-- An entity holds `(a, v)` active in a database value when the replay of
its `(a, v)` datoms leaves a non-empty active list — the program's own
notion of an active fact (glossary: the most recent op for the pair is an
assert), read through the same restricted replay that `_lookup_direct`
performs. -/
def holdsActive (db : Db) (e : Int) (a : String) (v : Value) : Prop :=
  ∃ A, replayActive (projOps ((db.attrValFacts a v).filter (fun f => f.e == e))) = some A
    ∧ A ≠ []

/-- The signed contribution of one operation to the balance of the pair
`p`. -/
def contribAV (f : String × Value × Bool) (p : String × Value) : Int :=
  if (f.1, f.2.1) = p then (if f.2.2 then 1 else -1) else 0

/-- The claim-side "v is among existing": the existing entry is a value list
containing `v` (claim C4). -/
def existingMem (v : Value) : Option AttrVal → Prop
  | some (.many vs) => v ∈ vs
  | _ => False

/-- The claim-side "existing equals v": Python `data[a] == v`; scalar entries
compare by value, list entries never equal a scalar, absent is not equal
(claim C4). -/
def existingEq (o : Option AttrVal) (v : Value) : Prop :=
  match o with
  | some av => avEqVal av v = true
  | none => False

/-! ## Concrete fixtures used by the witnesses -/

/-- A concrete cardinality-one attribute. -/
def attrP : Attr := { ident := "p", value_type := .long, cardinality := .one }

/-- A resolver that answers `attrP` for every name. -/
def gadP : Gad := fun _ => .ok attrP

/-- A resolver that always fails (never consulted in the contexts using
it). -/
def gadNone : Gad := fun _ => .error .fuel

/-- The empty standalone database (`Database()` with no remote). -/
def dbEmpty : Db := { remote := none }

/-- Well-formedness of a database value, the invariant every reachable value
satisfies: the remote snapshot followed by the overlay has strictly
increasing datom ids and nondecreasing transaction ids (ids and transactions
are allocated monotonically, and the overlay is appended after the remote
log), entities are nonnegative, and overlay datoms belong to transactions
beyond the remote snapshot. -/
def DbWF (db : Db) : Prop :=
  ((db.remoteFacts ++ db.with_datoms).Pairwise (fun x y => x.id < y.id)) ∧
  ((db.remoteFacts ++ db.with_datoms).Pairwise (fun x y => x.tx ≤ y.tx)) ∧
  (∀ d ∈ db.remoteFacts ++ db.with_datoms, 0 ≤ d.e) ∧
  (∀ d ∈ db.with_datoms, db.remote_tx_max < d.tx)

/-- A concrete well-formed database value with both a remote snapshot and a
local overlay, used by witnesses. -/
def dbW : Db :=
  { remote := some { log := [⟨0, 0, "a", .vInt 1, 0, true⟩,
      ⟨1, 1, "b", .vInt 2, 2, true⟩], tx_max := 2 },
    tx_min := -1,
    with_datoms := [⟨2, 1, "b", .vInt 3, 3, true⟩],
    full_history := false }

/-- A concrete unique cardinality-one attribute. -/
def attrU : Attr :=
  { ident := "u", value_type := .string, cardinality := .one,
    unique := some .val }

/-- A resolver answering `attrU` for every name. -/
def gadU : Gad := fun _ => .ok attrU

/-- A one-datom database holding `("u", "x")` on entity 0. -/
def dbU : Db := connDb [⟨0, 0, "u", .vStr "x", 1, true⟩]

/-! # Theorems -/

/-! ## Claim C1 -/

/-- C1: the claimed validation pipeline cannot execute on the provided
sources.  core.py's `Database._validate_datom` invokes
`attr_def.validate_value` with a single argument and `attr_def.validate_ref`,
but builtin.py's `Attr` declares `validate_value` with two parameters after
`self` and declares no `validate_ref` at all, so the very first validator
call of every transacted datom raises a `TypeError` (and the next an
`AttributeError`) instead of performing the claimed checks.  The theorem
reads the mismatch off the two interface tables transcribed from the
sources. -/
theorem c1_validator_interface_mismatch :
    attrMethodParams "validate_ref" = none ∧
    attrMethodParams "validate_value" = some ["value", "db"] ∧
    (∀ c ∈ validate_datom_calls, c.1 = "validate_value" → c.2.length ≠ 2) := by
  decide

/-! ## Claim C9: in-place `append_fact` versus rebuilding -/

theorem max_default_append (l : List Int) (x d : Int) :
    max_default (l ++ [x]) d = max (max_default l d) x := by
  simp [max_default, List.foldl_append]

theorem if_lt_eq_max (c x : Int) : (if c < x then x else c) = max c x := by
  rcases le_total c x with h | h
  · rcases lt_or_eq_of_le h with h' | h'
    · simp [h', max_eq_right h]
    · simp [h', max_self]
  · simp [not_lt.mpr h, max_eq_left h]

/-- C9: on an overlay whose already-built caches are valid, the in-place
`append_fact` is equivalent to rebuilding: each of `facts_by_attribute`,
`facts_by_attribute_value`, `facts_by_entity`, `tx_max` and `max_key` (for
every key, in particular `'e'` and `'_id'`) returns the same result as on a
fresh `LocalDatoms` constructed from the extended datom list. -/
theorem append_fact_equiv_rebuild (L : LocalDatoms) (d : Datom) (h : ValidCaches L) :
    (∀ a, (L.append_fact d).facts_by_attribute a =
      (LocalDatoms.ofList (L.datoms ++ [d])).facts_by_attribute a) ∧
    (∀ a v, (L.append_fact d).facts_by_attribute_value a v =
      (LocalDatoms.ofList (L.datoms ++ [d])).facts_by_attribute_value a v) ∧
    (∀ e, (L.append_fact d).facts_by_entity e =
      (LocalDatoms.ofList (L.datoms ++ [d])).facts_by_entity e) ∧
    ((L.append_fact d).tx_max = (LocalDatoms.ofList (L.datoms ++ [d])).tx_max) ∧
    (∀ k, (L.append_fact d).max_key k =
      (LocalDatoms.ofList (L.datoms ++ [d])).max_key k) := by
  obtain ⟨htx, he, hid, ha, hav, hen⟩ := h
  refine ⟨?_, ?_, ?_, ?_, ?_⟩
  · intro a
    cases hc : L.cache_a_index with
    | none =>
      simp [LocalDatoms.append_fact, LocalDatoms.facts_by_attribute,
        LocalDatoms.ofList, hc]
    | some f =>
      have hf := ha f hc
      simp only [LocalDatoms.append_fact, LocalDatoms.facts_by_attribute,
        LocalDatoms.ofList, hc, Option.map_some']
      by_cases hda : a = d.a
      · subst hda
        simp [hf, buildAIndex, List.filter_append]
      · have : (d.a == a) = false := by
          simp [beq_iff_eq]; exact fun hh => hda hh.symm
        simp [hda, hf, buildAIndex, List.filter_append, this]
  · intro a v
    cases hc : L.cache_av_index with
    | none =>
      simp [LocalDatoms.append_fact, LocalDatoms.facts_by_attribute_value,
        LocalDatoms.ofList, hc]
    | some f =>
      have hf := hav f hc
      simp only [LocalDatoms.append_fact, LocalDatoms.facts_by_attribute_value,
        LocalDatoms.ofList, hc, Option.map_some']
      by_cases hda : a = d.a ∧ v = d.v
      · obtain ⟨h1, h2⟩ := hda
        subst h1; subst h2
        simp [hf, buildAVIndex, List.filter_append]
      · have : (d.a == a && d.v == v) = false := by
          rcases not_and_or.mp hda with hh | hh
          · have : (d.a == a) = false := by
              simp [beq_iff_eq]; exact fun q => hh q.symm
            simp [this]
          · have : (d.v == v) = false := by
              simp [beq_iff_eq]; exact fun q => hh q.symm
            simp [this]
        simp [hda, hf, buildAVIndex, List.filter_append, this]
  · intro e
    cases hc : L.cache_e_index with
    | none =>
      simp [LocalDatoms.append_fact, LocalDatoms.facts_by_entity,
        LocalDatoms.ofList, hc]
    | some f =>
      have hf := hen f hc
      simp only [LocalDatoms.append_fact, LocalDatoms.facts_by_entity,
        LocalDatoms.ofList, hc, Option.map_some']
      by_cases hde : e = d.e
      · subst hde
        simp [hf, buildEIndex, List.filter_append]
      · have : (d.e == e) = false := by
          simp [beq_iff_eq]; exact fun hh => hde hh.symm
        simp [hde, hf, buildEIndex, List.filter_append, this]
  · cases hc : L.cache_tx_max with
    | none =>
      simp [LocalDatoms.append_fact, LocalDatoms.tx_max, LocalDatoms.ofList, hc]
    | some c =>
      have := htx c hc
      subst this
      simp only [LocalDatoms.append_fact, LocalDatoms.tx_max, LocalDatoms.ofList,
        hc, Option.map_some']
      rw [List.map_append]
      simp only [List.map_cons, List.map_nil]
      rw [max_default_append, if_lt_eq_max]
  · intro k
    by_cases hk : k ≠ "e" ∧ k ≠ "_id"
    · simp [LocalDatoms.append_fact, LocalDatoms.max_key, LocalDatoms.ofList, hk]
    · cases hce : L.cache_e_max with
      | none =>
        simp [LocalDatoms.append_fact, LocalDatoms.max_key, LocalDatoms.ofList,
          hk, hce]
      | some me =>
        cases hci : L.cache_id_max with
        | none =>
          simp [LocalDatoms.append_fact, LocalDatoms.max_key, LocalDatoms.ofList,
            hk, hce, hci]
        | some mi =>
          have hme := he me hce
          have hmi := hid mi hci
          subst hme; subst hmi
          simp only [LocalDatoms.append_fact, LocalDatoms.max_key,
            LocalDatoms.ofList, hk, hce, hci, Option.map_some']
          rw [List.map_append, List.map_append]
          simp only [List.map_cons, List.map_nil]
          rw [max_default_append, max_default_append, if_lt_eq_max, if_lt_eq_max]

/-- Witness for C9 at a concrete overlay with the scalar caches and the
by-attribute cache built (and valid) and the other caches absent. -/
theorem append_fact_equiv_rebuild_witness :
    (∀ a, ((LocalDatoms.mk [⟨0, 0, "x", .vInt 1, 0, true⟩] (some 0) (some 0) (some 0)
        (some (buildAIndex [⟨0, 0, "x", .vInt 1, 0, true⟩])) none none).append_fact
        ⟨1, 2, "y", .vInt 5, 3, true⟩).facts_by_attribute a =
      (LocalDatoms.ofList ([⟨0, 0, "x", .vInt 1, 0, true⟩] ++
        [⟨1, 2, "y", .vInt 5, 3, true⟩])).facts_by_attribute a) ∧
    (∀ a v, ((LocalDatoms.mk [⟨0, 0, "x", .vInt 1, 0, true⟩] (some 0) (some 0) (some 0)
        (some (buildAIndex [⟨0, 0, "x", .vInt 1, 0, true⟩])) none none).append_fact
        ⟨1, 2, "y", .vInt 5, 3, true⟩).facts_by_attribute_value a v =
      (LocalDatoms.ofList ([⟨0, 0, "x", .vInt 1, 0, true⟩] ++
        [⟨1, 2, "y", .vInt 5, 3, true⟩])).facts_by_attribute_value a v) ∧
    (∀ e, ((LocalDatoms.mk [⟨0, 0, "x", .vInt 1, 0, true⟩] (some 0) (some 0) (some 0)
        (some (buildAIndex [⟨0, 0, "x", .vInt 1, 0, true⟩])) none none).append_fact
        ⟨1, 2, "y", .vInt 5, 3, true⟩).facts_by_entity e =
      (LocalDatoms.ofList ([⟨0, 0, "x", .vInt 1, 0, true⟩] ++
        [⟨1, 2, "y", .vInt 5, 3, true⟩])).facts_by_entity e) ∧
    (((LocalDatoms.mk [⟨0, 0, "x", .vInt 1, 0, true⟩] (some 0) (some 0) (some 0)
        (some (buildAIndex [⟨0, 0, "x", .vInt 1, 0, true⟩])) none none).append_fact
        ⟨1, 2, "y", .vInt 5, 3, true⟩).tx_max =
      (LocalDatoms.ofList ([⟨0, 0, "x", .vInt 1, 0, true⟩] ++
        [⟨1, 2, "y", .vInt 5, 3, true⟩])).tx_max) ∧
    (∀ k, ((LocalDatoms.mk [⟨0, 0, "x", .vInt 1, 0, true⟩] (some 0) (some 0) (some 0)
        (some (buildAIndex [⟨0, 0, "x", .vInt 1, 0, true⟩])) none none).append_fact
        ⟨1, 2, "y", .vInt 5, 3, true⟩).max_key k =
      (LocalDatoms.ofList ([⟨0, 0, "x", .vInt 1, 0, true⟩] ++
        [⟨1, 2, "y", .vInt 5, 3, true⟩])).max_key k) :=
  append_fact_equiv_rebuild
    (LocalDatoms.mk [⟨0, 0, "x", .vInt 1, 0, true⟩] (some 0) (some 0) (some 0)
      (some (buildAIndex [⟨0, 0, "x", .vInt 1, 0, true⟩])) none none)
    ⟨1, 2, "y", .vInt 5, 3, true⟩
    ⟨by intro c hc; injection hc with h; subst h; decide,
     by intro c hc; injection hc with h; subst h; decide,
     by intro c hc; injection hc with h; subst h; decide,
     by intro f hf; injection hf with h; subst h; intro a; rfl,
     (by intro f hf; simp at hf),
     (by intro f hf; simp at hf)⟩

/-! ## Claim C10: replay safety of `_get_active_facts` -/

theorem balance_foldl_sub (l : List (String × Value × Bool)) (p : String × Value) :
    ∀ acc₁ acc₂ : Int,
    l.foldl (fun acc f =>
      if (f.1, f.2.1) = p then (if f.2.2 then acc + 1 else acc - 1) else acc) acc₁ -
    l.foldl (fun acc f =>
      if (f.1, f.2.1) = p then (if f.2.2 then acc + 1 else acc - 1) else acc) acc₂ =
    acc₁ - acc₂ := by
  induction l with
  | nil => intro a b; simp
  | cons f l ih =>
    intro a b
    rw [List.foldl_cons, List.foldl_cons]
    refine (ih _ _).trans ?_
    by_cases hf : (f.1, f.2.1) = p
    · by_cases ho : f.2.2 = true <;> simp [hf, ho] <;> ring
    · simp [hf]

theorem balanceAV_cons (f : String × Value × Bool) (l : List (String × Value × Bool))
    (p : String × Value) :
    balanceAV (f :: l) p = contribAV f p + balanceAV l p := by
  have h := balance_foldl_sub l p
    (if (f.1, f.2.1) = p then (if f.2.2 then (0 : Int) + 1 else 0 - 1) else 0) 0
  unfold balanceAV contribAV
  rw [List.foldl_cons]
  by_cases hf : (f.1, f.2.1) = p
  · by_cases ho : f.2.2 = true
    · simp [hf, ho] at h ⊢ <;> omega
    · simp [hf, ho] at h ⊢ <;> omega
  · simp [hf] at h ⊢ <;> omega

theorem replayFrom_append (A : List (String × Value))
    (xs ys : List (String × Value × Bool)) :
    replayFrom A (xs ++ ys) =
      match replayFrom A xs with
      | none => none
      | some B => replayFrom B ys := by
  induction xs generalizing A with
  | nil => simp [replayFrom]
  | cons f xs ih =>
    simp only [List.cons_append, replayFrom]
    cases replayStep A f with
    | none => rfl
    | some A' => exact ih A'

theorem replay_count : ∀ (xs : List (String × Value × Bool))
    (A B : List (String × Value)), replayFrom A xs = some B →
    ∀ p, (B.count p : Int) = (A.count p : Int) + balanceAV xs p
  | [], A, B, h, p => by
    simp only [replayFrom, Option.some_inj] at h
    subst h
    simp [balanceAV]
  | (a, v, op) :: xs, A, B, h, p => by
    rw [balanceAV_cons]
    cases op with
    | true =>
      simp only [replayFrom, replayStep] at h
      have hrec := replay_count xs (A ++ [(a, v)]) B h p
      rw [hrec, List.count_append]
      by_cases hp : (a, v) = p
      · have hc : contribAV (a, v, true) p = 1 := by simp [contribAV, hp]
        have hc1 : List.count p [(a, v)] = 1 := by simp [List.count_cons, hp]
        rw [hc, hc1]
        push_cast
        ring
      · have hc : contribAV (a, v, true) p = 0 := by simp [contribAV, hp]
        have hc0 : List.count p [(a, v)] = 0 := by
          simp only [List.count_cons, List.count_nil, beq_iff_eq]
          simp [hp]
        rw [hc, hc0]
        push_cast
        ring
    | false =>
      simp only [replayFrom, replayStep] at h
      by_cases hm : (a, v) ∈ A
      · rw [if_pos hm] at h
        have hrec := replay_count xs (A.erase (a, v)) B h p
        rw [hrec]
        by_cases hp : (a, v) = p
        · subst hp
          have hc : contribAV (a, v, false) (a, v) = -1 := by simp [contribAV]
          rw [hc, List.count_erase_self]
          have hpos : 0 < A.count (a, v) := List.count_pos_iff.mpr hm
          push_cast [Nat.cast_sub hpos]
          ring
        · have hc : contribAV (a, v, false) p = 0 := by simp [contribAV, hp]
          have hne : p ≠ (a, v) := fun q => hp q.symm
          rw [hc, List.count_erase_of_ne (by simpa using hne)]
          push_cast
          ring
      · rw [if_neg hm] at h
        exact absurd h (by simp)

theorem replay_total : ∀ (xs : List (String × Value × Bool))
    (A : List (String × Value)),
    (∀ ys a v zs, xs = ys ++ (a, v, false) :: zs →
      0 < (A.count (a, v) : Int) + balanceAV ys (a, v)) →
    ∃ B, replayFrom A xs = some B
  | [], A, _ => ⟨A, rfl⟩
  | (a, v, op) :: xs, A, h => by
    cases op with
    | true =>
      have hrec := replay_total xs (A ++ [(a, v)]) (by
        intro ys a' v' zs hsplit
        have hh := h ((a, v, true) :: ys) a' v' zs (by rw [hsplit]; rfl)
        rw [balanceAV_cons] at hh
        rw [List.count_append]
        by_cases hp : (a, v) = (a', v')
        · have hc : contribAV (a, v, true) (a', v') = 1 := by simp [contribAV, hp]
          have hc1 : List.count (a', v') [(a, v)] = 1 := by simp [List.count_cons, hp]
          rw [hc] at hh
          rw [hc1]
          push_cast
          omega
        · have hc : contribAV (a, v, true) (a', v') = 0 := by simp [contribAV, hp]
          have hc0 : List.count (a', v') [(a, v)] = 0 := by
            simp only [List.count_cons, List.count_nil, beq_iff_eq]
            simp [hp]
          rw [hc] at hh
          rw [hc0]
          push_cast
          omega)
      obtain ⟨B, hB⟩ := hrec
      exact ⟨B, by simp only [replayFrom, replayStep]; exact hB⟩
    | false =>
      have h0 := h [] a v xs rfl
      have hb0 : balanceAV [] (a, v) = 0 := by simp [balanceAV]
      have hpos : 0 < A.count (a, v) := by
        have hlt : (0 : Int) < (A.count (a, v) : Int) := by omega
        exact_mod_cast hlt
      have hm : (a, v) ∈ A := List.count_pos_iff.mp hpos
      have hrec := replay_total xs (A.erase (a, v)) (by
        intro ys a' v' zs hsplit
        have hh := h ((a, v, false) :: ys) a' v' zs (by rw [hsplit]; rfl)
        rw [balanceAV_cons] at hh
        by_cases hp : (a, v) = (a', v')
        · have hc : contribAV (a, v, false) (a', v') = -1 := by simp [contribAV, hp]
          rw [hc] at hh
          rw [← hp, List.count_erase_self]
          rw [← hp] at hh
          push_cast [Nat.cast_sub hpos]
          omega
        · have hc : contribAV (a, v, false) (a', v') = 0 := by simp [contribAV, hp]
          have hne : (a', v') ≠ (a, v) := fun q => hp q.symm
          rw [hc] at hh
          rw [List.count_erase_of_ne (by simpa using hne)]
          omega)
      obtain ⟨B, hB⟩ := hrec
      exact ⟨B, by simp only [replayFrom, replayStep, if_pos hm]; exact hB⟩

/-- C10: the replay underlying `get` succeeds on every datom list whose
retracts each have a matching still-active assert (positive assert/retract
balance at the retract point), while on a list containing a retract whose
`(a, v)` is not active at that point the replay fails, so `get` raises the
`list.remove` `ValueError` for that call rather than ignoring the retract
(the failure is confined to this call: a pure read mutates nothing else). -/
theorem replay_safety (fs : List Datom) (gad : Gad) :
    (SafeRetracts (projOps fs) → ∃ A, replayActive (projOps fs) = some A) ∧
    (∀ ys a v zs A0, projOps fs = ys ++ (a, v, false) :: zs →
      replayFrom [] ys = some A0 → (a, v) ∉ A0 →
      replayActive (projOps fs) = none ∧
      getFromFacts gad fs = .error (.valueError "list remove: x not in list")) := by
  constructor
  · intro hsafe
    apply replay_total
    intro ys a v zs hsplit
    have hb := hsafe ys a v zs hsplit
    simpa using hb
  · intro ys a v zs A0 hsplit h0 hnm
    have hnone : replayActive (projOps fs) = none := by
      unfold replayActive
      rw [hsplit, replayFrom_append, h0]
      simp only [replayFrom, replayStep, if_neg hnm]
    refine ⟨hnone, ?_⟩
    unfold getFromFacts
    rw [hnone]

/-- Positional reformulation of `SafeRetracts`, decidable on concrete
lists. -/
theorem safeRetracts_of_forall_index (l : List (String × Value × Bool))
    (hidx : ∀ i (h : i < l.length), (l.get ⟨i, h⟩).2.2 = false →
      0 < balanceAV (l.take i) ((l.get ⟨i, h⟩).1, (l.get ⟨i, h⟩).2.1)) :
    SafeRetracts l := by
  intro ys a v zs hsplit
  have hlt : ys.length < l.length := by
    rw [hsplit, List.length_append, List.length_cons]
    omega
  have hget : l.get ⟨ys.length, hlt⟩ = (a, v, false) := by
    subst hsplit
    rw [List.get_eq_getElem, List.getElem_append_right (Nat.le_refl _)]
    simp
  have htake : l.take ys.length = ys := by
    subst hsplit
    exact List.take_left ys ((a, v, false) :: zs)
  have hres := hidx ys.length hlt
  rw [hget, htake] at hres
  exact hres rfl

/-- Witness for C10: a concrete assert/retract pair replays successfully,
and a lone unmatched retract makes the replay (and hence `get`) fail. -/
theorem replay_safety_witness :
    (∃ A, replayActive (projOps [⟨0, 0, "a", .vInt 1, 0, true⟩,
      ⟨1, 0, "a", .vInt 1, 0, false⟩]) = some A) ∧
    (replayActive (projOps [⟨0, 0, "a", .vInt 1, 0, false⟩]) = none ∧
      getFromFacts (fun _ => .error .fuel) [⟨0, 0, "a", .vInt 1, 0, false⟩] =
        .error (.valueError "list remove: x not in list")) :=
  ⟨(replay_safety [⟨0, 0, "a", .vInt 1, 0, true⟩, ⟨1, 0, "a", .vInt 1, 0, false⟩]
      (fun _ => .error .fuel)).1
    (safeRetracts_of_forall_index _ (by decide)),
   (replay_safety [⟨0, 0, "a", .vInt 1, 0, false⟩] (fun _ => .error .fuel)).2
     [] "a" (.vInt 1) [] [] rfl rfl (by simp)⟩


/-! ## Claim C4: cardinality validation -/

theorem contains_true_iff (l : List Value) (v : Value) :
    l.contains v = true ↔ v ∈ l := List.elem_iff

/-- C4: with `existing = db.get(e).get(a)` (shaped by the same attribute
definitions that `get` consulted, so a scalar entry only occurs under a
cardinality-one attribute), `validate_cardinality` succeeds exactly outside
the four failure cases of the claim: assert/cardinality-one with existing
set; assert/cardinality-many with `v` among existing; retract/one with
existing absent or different from `v`; retract/many with `v` not among
existing. -/
theorem validate_cardinality_spec (gad : Gad) (db : Db) (attr : Attr) (e : Int)
    (v : Value) (op : Bool) (data : EntityData)
    (hdata : getD gad db e = .ok data)
    (hshape : ∀ w, dictGet data attr.ident = some (.one w) → attr.cardinality = .one) :
    (attr.validate_cardinality gad e v db op = .ok ()) ↔
      ¬ ((op = true ∧ attr.cardinality = .one ∧ (dictGet data attr.ident).isSome) ∨
         (op = true ∧ attr.cardinality = .many ∧ existingMem v (dictGet data attr.ident)) ∨
         (op = false ∧ attr.cardinality = .one ∧ ¬ existingEq (dictGet data attr.ident) v) ∨
         (op = false ∧ attr.cardinality = .many ∧ ¬ existingMem v (dictGet data attr.ident))) := by
  unfold Attr.validate_cardinality
  rw [hdata]
  cases op with
  | true =>
    cases hcard : attr.cardinality with
    | one =>
      cases hE : dictGet data attr.ident with
      | none => simp [hE, existingMem]
      | some av => simp [hE, existingMem]
    | many =>
      cases hE : dictGet data attr.ident with
      | none => simp [hE, existingMem]
      | some av =>
        cases av with
        | one w =>
          have := hshape w hE
          rw [this] at hcard
          exact absurd hcard (by simp)
        | many vs =>
          by_cases hv : v ∈ vs
          · simp [hE, existingMem, hv, (contains_true_iff vs v).mpr hv]
          · have hc : vs.contains v = false := by
              rw [Bool.eq_false_iff]
              intro hq
              exact hv ((contains_true_iff vs v).mp hq)
            simp [hE, existingMem, hv, hc]
  | false =>
    cases hcard : attr.cardinality with
    | one =>
      cases hE : dictGet data attr.ident with
      | none => simp [hE, existingEq]
      | some av =>
        by_cases hq : avEqVal av v = true
        · simp [hE, existingEq, hq]
        · simp [hE, existingEq, hq]
    | many =>
      cases hE : dictGet data attr.ident with
      | none => simp [hE, existingMem]
      | some av =>
        cases av with
        | one w =>
          have := hshape w hE
          rw [this] at hcard
          exact absurd hcard (by simp)
        | many vs =>
          by_cases hv : v ∈ vs
          · simp [hE, existingMem, hv, (contains_true_iff vs v).mpr hv]
          · have hc : vs.contains v = false := by
              rw [Bool.eq_false_iff]
              intro hq
              exact hv ((contains_true_iff vs v).mp hq)
            simp [hE, existingMem, hv, hc]

/-- Witness for C4 at a concrete empty entity: asserting on an empty dict
succeeds, and the failure condition is indeed absent there. -/
theorem validate_cardinality_spec_witness :
    (getD gadP dbEmpty 0 = .ok []) ∧
    ((attrP.validate_cardinality gadP 0 (.vInt 7) dbEmpty true = .ok ()) ↔
      ¬ ((true = true ∧ attrP.cardinality = .one ∧ (dictGet [] attrP.ident).isSome) ∨
         (true = true ∧ attrP.cardinality = .many ∧
           existingMem (.vInt 7) (dictGet [] attrP.ident)) ∨
         (true = false ∧ attrP.cardinality = .one ∧
           ¬ existingEq (dictGet [] attrP.ident) (.vInt 7)) ∨
         (true = false ∧ attrP.cardinality = .many ∧
           ¬ existingMem (.vInt 7) (dictGet [] attrP.ident)))) :=
  ⟨rfl, validate_cardinality_spec gadP dbEmpty attrP 0 (.vInt 7) true [] rfl
    (by intro w hw; simp [dictGet] at hw)⟩

/-! ## Claim C2: transaction data shape -/

theorem transaction_data_go_spec (gad : Gad) (db : Db) :
    ∀ (fs : List StagedFact) (i : Nat) (names : List (String × Int))
      (me cur tx mid : Int) (ds : List Datom) (names' : List (String × Int)),
    transaction_data_go gad db fs i names me cur tx mid = .ok (ds, names') →
    ds.length = fs.length ∧
    (∀ d ∈ ds, d.tx = tx) ∧
    (∀ j (hj : j < ds.length), (ds.get ⟨j, hj⟩).id = mid + (i : Int) + 1 + j) ∧
    (∀ t rest, fs = t :: rest → ∃ e n1 m1,
      resolve_entity gad db t.entity names me cur = .ok (e, n1, m1) ∧
      ds.head? = some ⟨mid + (i : Int) + 1, e, t.attr, t.value, tx, t.op⟩) := by
  intro fs
  induction fs with
  | nil =>
    intro i names me cur tx mid ds names' h
    simp only [transaction_data_go, Except.ok.injEq, Prod.mk.injEq] at h
    obtain ⟨h1, _⟩ := h
    subst h1
    refine ⟨rfl, by simp, ?_, ?_⟩
    · intro j hj
      exact absurd hj (by simp)
    · intro t rest ht
      cases ht
  | cons t rest ih =>
    intro i names me cur tx mid ds names' h
    simp only [transaction_data_go] at h
    split at h
    · exact absurd h (by simp)
    · rename_i e names1 me1 hres
      split at h
      · exact absurd h (by simp)
      · rename_i ds1 names2 hrec
        simp only [Except.ok.injEq, Prod.mk.injEq] at h
        obtain ⟨hds, _⟩ := h
        subst hds
        obtain ⟨hlen, htx, hid, _⟩ := ih (i + 1) names1 me1 cur tx mid ds1 names2 hrec
        refine ⟨by simp [hlen], ?_, ?_, ?_⟩
        · intro d hd
          rcases List.mem_cons.mp hd with hh | hh
          · subst hh; rfl
          · exact htx d hh
        · intro j hj
          cases j with
          | zero =>
            simp only [List.get]
            push_cast
            ring
          | succ j' =>
            have hj' : j' < ds1.length := by
              simp at hj
              omega
            have hone := hid j' hj'
            simp only [List.get] at hone ⊢
            rw [hone]
            push_cast
            ring
        · intro t' rest' ht
          obtain ⟨ht1, _⟩ := List.cons.injEq .. ▸ ht
          subst ht1
          exact ⟨e, names1, me1, hres, rfl⟩

/-- C2: a successfully assembled transaction has one `tx` on all its datoms,
equal to `max(e) + 1` of the committed plus in-flight state; its datom ids
are the contiguous strictly increasing integers starting at `max(id) + 1`;
and its first datom is the synthetic `db/txInstant` datom whose entity field
equals the transaction id (the transaction entity points to itself). -/
theorem transaction_data_spec (gad : Gad) (db : Db) (time : Int)
    (facts : List StagedFact) (tx_data : List Datom)
    (temp_ids : List (String × Int))
    (h : db.transaction_data gad time facts = .ok (tx_data, temp_ids)) :
    (∀ d ∈ tx_data, d.tx = db.get_max_entity_id + 1) ∧
    (∀ j (hj : j < tx_data.length),
      (tx_data.get ⟨j, hj⟩).id = db.get_max_id + 1 + j) ∧
    tx_data.head? = some ⟨db.get_max_id + 1, db.get_max_entity_id + 1,
      "db/txInstant", .vInt time, db.get_max_entity_id + 1, true⟩ := by
  unfold Db.transaction_data at h
  obtain ⟨hlen, htx, hid, hhead⟩ :=
    transaction_data_go_spec gad db _ _ _ _ _ _ _ _ _ h
  refine ⟨htx, ?_, ?_⟩
  · intro j hj
    have := hid j hj
    rw [this]
    push_cast
    ring
  · obtain ⟨e, n1, m1, hres, hh⟩ := hhead _ _ rfl
    have hcomp : resolve_entity gad db
        ({ entity := .ename "datomic.tx", attr := "db/txInstant",
           value := .vInt time, op := true } : StagedFact).entity
        [("datomic.tx", db.get_max_entity_id + 1)] (db.get_max_entity_id + 1)
        db.get_max_entity_id =
        .ok (db.get_max_entity_id + 1,
          [("datomic.tx", db.get_max_entity_id + 1)],
          db.get_max_entity_id + 1) := rfl
    rw [hcomp] at hres
    simp only [Except.ok.injEq, Prod.mk.injEq] at hres
    obtain ⟨he, _⟩ := hres
    rw [hh, ← he]
    simp

/-- Witness for C2: the empty facts buffer on the empty standalone database
assembles to the lone synthetic `db/txInstant` datom with `tx = e = 0` and
`id = 0`. -/
theorem transaction_data_spec_witness :
    (dbEmpty.transaction_data gadNone 42 [] =
      .ok ([⟨0, 0, "db/txInstant", .vInt 42, 0, true⟩], [("datomic.tx", 0)])) ∧
    ((∀ d ∈ [(⟨0, 0, "db/txInstant", .vInt 42, 0, true⟩ : Datom)],
        d.tx = dbEmpty.get_max_entity_id + 1) ∧
     (∀ j (hj : j < [(⟨0, 0, "db/txInstant", .vInt 42, 0, true⟩ : Datom)].length),
        ([(⟨0, 0, "db/txInstant", .vInt 42, 0, true⟩ : Datom)].get ⟨j, hj⟩).id =
          dbEmpty.get_max_id + 1 + j) ∧
     [(⟨0, 0, "db/txInstant", .vInt 42, 0, true⟩ : Datom)].head? =
       some ⟨dbEmpty.get_max_id + 1, dbEmpty.get_max_entity_id + 1,
         "db/txInstant", .vInt 42, dbEmpty.get_max_entity_id + 1, true⟩) :=
  ⟨rfl, transaction_data_spec gadNone dbEmpty 42 []
    [⟨0, 0, "db/txInstant", .vInt 42, 0, true⟩] [("datomic.tx", 0)] rfl⟩

/-! ## Claims C7 and C3: sorted history and `as_of` -/

theorem foldl_max_le_init (l : List Int) (d : Int) : d ≤ l.foldl max d := by
  induction l generalizing d with
  | nil => simp
  | cons x l ih =>
    rw [List.foldl_cons]
    exact le_trans (le_max_left d x) (ih (max d x))

theorem foldl_max_le_mem (l : List Int) (d x : Int) (h : x ∈ l) :
    x ≤ l.foldl max d := by
  induction l generalizing d with
  | nil => cases h
  | cons y l ih =>
    rw [List.foldl_cons]
    rcases List.mem_cons.mp h with rfl | hm
    · exact le_trans (le_max_right d x) (foldl_max_le_init l (max d x))
    · exact ih (max d y) hm

theorem mem_entities (db : Db) (x : Int) :
    x ∈ db.entities ↔ 0 ≤ x ∧ x ≤ db.get_max_entity_id := by
  unfold Db.entities
  rw [List.mem_map]
  constructor
  · rintro ⟨k, hk, rfl⟩
    rw [List.mem_range] at hk
    omega
  · rintro ⟨h0, h1⟩
    refine ⟨x.toNat, ?_, by omega⟩
    rw [List.mem_range]
    omega

theorem contains_entities (db : Db) (x : Int) :
    (db.entities).contains x = true ↔ 0 ≤ x ∧ x ≤ db.get_max_entity_id := by
  rw [List.elem_iff, mem_entities]

theorem entities_nodup (db : Db) : db.entities.Nodup := by
  unfold Db.entities
  refine List.Nodup.map ?_ (List.nodup_range _)
  intro a b hab
  exact Nat.cast_injective hab

theorem remote_e_le_max (db : Db) (r : RemoteDatabase) (hr : db.remote = some r)
    (d : Datom) (hd : d ∈ r.facts) : d.e ≤ db.get_max_entity_id := by
  unfold Db.get_max_entity_id Db.get_max_key
  rw [hr]
  have h1 : d.e ≤ max_default (r.facts.map (·.e)) (-1) :=
    foldl_max_le_mem _ _ _ (List.mem_map_of_mem _ hd)
  dsimp only
  split <;> omega

theorem overlay_e_le_max (db : Db) (d : Datom) (hd : d ∈ db.with_datoms) :
    d.e ≤ db.get_max_entity_id := by
  unfold Db.get_max_entity_id Db.get_max_key
  have h1 : d.e ≤ max_default (db.with_datoms.map (·.e)) (-1) :=
    foldl_max_le_mem _ _ _ (List.mem_map_of_mem _ hd)
  cases db.remote <;> (dsimp only; split <;> omega)

theorem filter_append_disjoint_perm {α : Type} (l : List α) (p q : α → Bool)
    (h : ∀ x ∈ l, ¬(p x = true ∧ q x = true)) :
    (l.filter p ++ l.filter q).Perm (l.filter (fun x => p x || q x)) := by
  induction l with
  | nil => simp
  | cons x l ih =>
    have hx := h x (List.mem_cons_self x l)
    have ih' := ih (fun y hy => h y (List.mem_cons_of_mem x hy))
    by_cases hp : p x = true
    · have hq : q x = false := by
        cases hqv : q x
        · rfl
        · exact absurd ⟨hp, hqv⟩ hx
      simp only [List.filter_cons, hp, hq, if_true, if_false, Bool.true_or,
        cond_true, cond_false]
      exact (ih'.cons x)
    · have hp' : p x = false := by
        cases hpv : p x
        · rfl
        · exact absurd hpv hp
      by_cases hq : q x = true
      · simp only [List.filter_cons, hp', hq, Bool.false_or, cond_true, cond_false]
        refine List.Perm.trans ?_ (ih'.cons x)
        exact List.perm_middle
      · have hq' : q x = false := by
          cases hqv : q x
          · rfl
          · exact absurd hqv hq
        simp only [List.filter_cons, hp', hq', Bool.false_or, cond_false]
        exact ih'

theorem flatMap_filter_perm (l : List Datom) : ∀ (es : List Int), es.Nodup →
    ((es.flatMap fun e => l.filter (fun d => d.e == e))).Perm
      (l.filter (fun d => es.contains d.e)) := by
  intro es
  induction es with
  | nil => simp
  | cons e es ih =>
    intro hnd
    have hnd' := (List.nodup_cons.mp hnd).2
    have he : e ∉ es := (List.nodup_cons.mp hnd).1
    rw [List.flatMap_cons]
    refine ((ih hnd').append_left _).trans ?_
    refine (filter_append_disjoint_perm l _ _ ?_).trans ?_
    · rintro x hx ⟨h1, h2⟩
      have hxe : x.e = e := by simpa using h1
      rw [hxe] at h2
      exact he (List.elem_iff.mp h2)
    · have heq : l.filter (fun d => d.e == e || es.contains d.e) =
          l.filter (fun d => (e :: es).contains d.e) := by
        apply List.filter_congr
        intro d _
        rw [List.contains_cons]
      rw [heq]

theorem allFactsPre_perm (db : Db)
    (he : ∀ d ∈ db.remoteFacts ++ db.with_datoms, 0 ≤ d.e) :
    (db.allFactsPre).Perm (db.remoteFacts ++ db.with_datoms) := by
  have hovC : ∀ d ∈ db.with_datoms, (db.entities).contains d.e = true := by
    intro d hd
    exact (contains_entities db d.e).mpr
      ⟨he d (List.mem_append_right _ hd), overlay_e_le_max db d hd⟩
  have hov : (db.entities.flatMap
      (fun e => db.with_datoms.filter (fun d => d.e == e))).Perm db.with_datoms := by
    refine (flatMap_filter_perm db.with_datoms db.entities (entities_nodup db)).trans ?_
    rw [List.filter_eq_self.mpr hovC]
  unfold Db.allFactsPre
  cases hr : db.remote with
  | none =>
    have hrf : db.remoteFacts = [] := by unfold Db.remoteFacts; rw [hr]
    simp only [hrf, List.nil_append]
    exact hov
  | some r =>
    have hrf : db.remoteFacts = r.facts := by unfold Db.remoteFacts; rw [hr]
    have hrC : ∀ d ∈ r.facts, (db.entities).contains d.e = true := by
      intro d hd
      refine (contains_entities db d.e).mpr
        ⟨he d (List.mem_append_left _ (hrf ▸ hd)), remote_e_le_max db r hr d hd⟩
    have hpart : (if db.entities.any (fun e => decide (e ≤ r.e_max)) = true then
        r.facts.filter (fun d => db.entities.contains d.e) else []) = r.facts := by
      by_cases hg : db.entities.any (fun e => decide (e ≤ r.e_max)) = true
      · rw [if_pos hg, List.filter_eq_self.mpr hrC]
      · rw [if_neg hg]
        cases hf : r.facts with
        | nil => rfl
        | cons d l =>
          exfalso
          apply hg
          rw [List.any_eq_true]
          have hd : d ∈ r.facts := by rw [hf]; exact List.mem_cons_self d l
          refine ⟨d.e, ?_, ?_⟩
          · exact List.elem_iff.mp ((contains_entities db d.e).mpr
              ⟨he d (List.mem_append_left _ (hrf ▸ hd)), remote_e_le_max db r hr d hd⟩) |>
              fun hm => List.elem_iff.mpr hm |> fun _ => by
                exact (List.elem_iff).mp (hrC d hd)
          · rw [decide_eq_true_iff]
            unfold RemoteDatabase.e_max
            exact foldl_max_le_mem _ _ _ (List.mem_map_of_mem _ hd)
      -- end hpart
    rw [hr] at *
    simp only at hpart ⊢
    rw [hpart, hrf]
    exact hov.append_left r.facts

instance : IsAntisymm Datom (fun x y => x.id < y.id) :=
  ⟨fun _ _ h1 h2 => absurd h2 (by omega)⟩

theorem pairwise_lt_of_sorted_le_nodup (l : List Datom)
    (hs : l.Pairwise pyLe) (hn : (l.map (·.id)).Nodup) :
    l.Pairwise (fun x y => x.id < y.id) := by
  induction l with
  | nil => simp
  | cons x l ih =>
    rw [List.pairwise_cons] at hs ⊢
    rw [List.map_cons, List.nodup_cons] at hn
    obtain ⟨hx, hs'⟩ := hs
    obtain ⟨hnx, hn'⟩ := hn
    refine ⟨?_, ih hs' hn'⟩
    intro y hy
    have h1 : x.id ≤ y.id := by
      have := hx y hy
      simp only [pyLe, datomLt, decide_eq_false_iff_not, not_lt] at this
      exact this
    have h2 : x.id ≠ y.id := fun q => hnx (q ▸ List.mem_map_of_mem (·.id) hy)
    omega

/-- Under well-formedness, `all_facts` is literally the remote snapshot
followed by the overlay: the sort is the identity on the already
id-sorted union. -/
theorem all_facts_eq (db : Db) (hWF : DbWF db) :
    db.all_facts = db.remoteFacts ++ db.with_datoms := by
  obtain ⟨hid, _, he, _⟩ := hWF
  have hperm : (db.all_facts).Perm (db.remoteFacts ++ db.with_datoms) :=
    (List.perm_insertionSort pyLe _).trans (allFactsPre_perm db he)
  have hsorted : (db.all_facts).Pairwise pyLe :=
    List.sorted_insertionSort pyLe _
  have hnodupR : ((db.remoteFacts ++ db.with_datoms).map (·.id)).Nodup :=
    (List.pairwise_map).mpr (hid.imp (fun h => ne_of_lt h))
  have hnodupL : ((db.all_facts).map (·.id)).Nodup :=
    ((hperm.map (·.id)).nodup_iff).mpr hnodupR
  have hlt : (db.all_facts).Pairwise (fun x y => x.id < y.id) :=
    pairwise_lt_of_sorted_le_nodup _ hsorted hnodupL
  exact List.eq_of_perm_of_sorted hperm hlt hid

/-- C7: on a well-formed database value, `all_facts` is sorted in strictly
increasing id order (`Datom.__lt__`) and is a permutation of the union of
the remote snapshot's datoms (those with `tx ≤ remote tx_max`) and the local
overlay's datoms; datom equality and the order used by the sort are
determined by the id field alone. -/
theorem all_facts_sorted_union (db : Db) (h : DbWF db) :
    (db.all_facts).Pairwise (fun x y => datomLt x y = true) ∧
    (db.all_facts).Perm (db.remoteFacts ++ db.with_datoms) ∧
    (∀ x y : Datom, (datomEq x y = true ↔ x.id = y.id) ∧
      (datomLt x y = true ↔ x.id < y.id)) := by
  have heq := all_facts_eq db h
  obtain ⟨hid, _, _, _⟩ := h
  refine ⟨?_, by rw [heq], ?_⟩
  · rw [heq]
    exact hid.imp (fun hxy => by simpa [datomLt] using hxy)
  · intro x y
    constructor
    · simp [datomEq]
    · simp [datomLt]

/-- Witness for C7 at the concrete two-datom remote snapshot with a
one-datom overlay. -/
theorem all_facts_sorted_union_witness :
    (dbW.all_facts).Pairwise (fun x y => datomLt x y = true) ∧
    (dbW.all_facts).Perm (dbW.remoteFacts ++ dbW.with_datoms) ∧
    (∀ x y : Datom, (datomEq x y = true ↔ x.id = y.id) ∧
      (datomLt x y = true ↔ x.id < y.id)) :=
  all_facts_sorted_union dbW (by
    refine ⟨?_, ?_, ?_, ?_⟩ <;> decide)

theorem remoteFacts_tx_le (db : Db) (d : Datom) (hd : d ∈ db.remoteFacts) :
    d.tx ≤ db.remote_tx_max := by
  cases hr : db.remote with
  | none =>
    have h0 : db.remoteFacts = [] := by unfold Db.remoteFacts; rw [hr]
    rw [h0] at hd
    cases hd
  | some r =>
    have h0 : db.remoteFacts = r.facts := by unfold Db.remoteFacts; rw [hr]
    have h1 : db.remote_tx_max = r.tx_max := by unfold Db.remote_tx_max; rw [hr]
    rw [h0] at hd
    rw [h1]
    unfold RemoteDatabase.facts at hd
    have := List.of_mem_filter hd
    simpa using this

theorem tx_le_tx_max (db : Db) (hWF : DbWF db) :
    ∀ d ∈ db.remoteFacts ++ db.with_datoms, d.tx ≤ db.tx_max := by
  obtain ⟨_, _, _, hov⟩ := hWF
  intro d hd
  unfold Db.tx_max
  rcases List.mem_append.mp hd with hr | ho
  · have h1 : d.tx ≤ db.remote_tx_max := remoteFacts_tx_le db d hr
    by_cases hlen : db.with_datoms.length > 0
    · rw [if_pos hlen]
      have hne : db.with_datoms ≠ [] := by
        intro hnil
        rw [hnil] at hlen
        simp at hlen
      obtain ⟨o, ho⟩ := List.exists_mem_of_ne_nil _ hne
      have h2 : db.remote_tx_max < o.tx := hov o ho
      have h3 : o.tx ≤ max_default (db.with_datoms.map (·.tx)) (-1) :=
        foldl_max_le_mem _ _ _ (List.mem_map_of_mem _ ho)
      exact h1.trans ((h2.trans_le h3).le)
    · rw [if_neg hlen]
      exact h1
  · have hlen : db.with_datoms.length > 0 := List.length_pos.mpr
      (List.ne_nil_of_mem ho)
    rw [if_pos hlen]
    exact foldl_max_le_mem _ _ _ (List.mem_map_of_mem _ ho)

theorem filter_tx_eq_takeWhile (l : List Datom) (k : Int)
    (h : l.Pairwise (fun x y => x.tx ≤ y.tx)) :
    l.filter (fun d => decide (d.tx ≤ k)) = l.takeWhile (fun d => decide (d.tx ≤ k)) := by
  induction l with
  | nil => rfl
  | cons x l ih =>
    rw [List.pairwise_cons] at h
    obtain ⟨hx, h'⟩ := h
    by_cases hxk : x.tx ≤ k
    · rw [List.filter_cons_of_pos (by simpa using hxk),
        List.takeWhile_cons_of_pos (by simpa using hxk), ih h']
    · rw [List.filter_cons_of_neg (by simpa using hxk),
        List.takeWhile_cons_of_neg (by simpa using hxk)]
      rw [List.filter_eq_nil_iff]
      intro y hy
      have := hx y hy
      simp only [decide_eq_true_eq]
      omega

theorem remoteFacts_narrow (r : RemoteDatabase) (k : Int) (hk : k ≤ r.tx_max) :
    (RemoteDatabase.facts { log := r.log, tx_max := k }) =
      r.facts.filter (fun d => decide (d.tx ≤ k)) := by
  unfold RemoteDatabase.facts
  rw [List.filter_filter]
  apply List.filter_congr
  intro d _
  by_cases hd : d.tx ≤ k
  · have : d.tx ≤ r.tx_max := le_trans hd hk
    simp [hd, this]
  · simp [hd]

/-- C3: on a well-formed database value, `as_of tx_k` for `tx_k ≤ tx_max`
succeeds and its `all_facts` is exactly the filter of `all_facts` to
`tx ≤ tx_k`, which is a prefix (the `takeWhile`) of `all_facts`;
`as_of tx_max` reproduces `all_facts` unchanged; and `as_of tx_id` for
`tx_id > tx_max` raises the "cannot travel into the future" `ValueError`
(the spec's conceptual ValidationError). -/
theorem as_of_spec (db : Db) (hWF : DbWF db) (k : Int) :
    (k ≤ db.tx_max → ∃ db', db.as_of k = .ok db' ∧
      db'.all_facts = (db.all_facts).filter (fun d => decide (d.tx ≤ k)) ∧
      (db.all_facts).filter (fun d => decide (d.tx ≤ k)) =
        (db.all_facts).takeWhile (fun d => decide (d.tx ≤ k))) ∧
    (∀ db', db.as_of db.tx_max = .ok db' → db'.all_facts = db.all_facts) ∧
    (db.tx_max < k → db.as_of k = .error (.valueError "cannot travel into the future")) := by
  obtain ⟨hid, htx, he, hov⟩ := hWF
  have hdbeq := all_facts_eq db ⟨hid, htx, he, hov⟩
  have main : ∀ kk : Int, kk ≤ db.tx_max → ∃ db', db.as_of kk = .ok db' ∧
      db'.all_facts = (db.all_facts).filter (fun d => decide (d.tx ≤ kk)) ∧
      (db.all_facts).filter (fun d => decide (d.tx ≤ kk)) =
        (db.all_facts).takeWhile (fun d => decide (d.tx ≤ kk)) := by
    intro kk hk
    have htake : (db.all_facts).filter (fun d => decide (d.tx ≤ kk)) =
        (db.all_facts).takeWhile (fun d => decide (d.tx ≤ kk)) := by
      apply filter_tx_eq_takeWhile
      rw [hdbeq]
      exact htx
    unfold Db.as_of
    rw [if_neg (not_lt.mpr hk)]
    by_cases hk2 : db.remote_tx_max < kk
    · rw [if_pos hk2]
      refine ⟨_, rfl, ?_, htake⟩
      have hrf : Db.remoteFacts { remote := db.remote, tx_min := -1, with_datoms := db.with_datoms.filter (fun f => decide (f.tx ≤ kk)), full_history := false } = db.remoteFacts := rfl
      have hwd : Db.with_datoms { remote := db.remote, tx_min := -1, with_datoms := db.with_datoms.filter (fun f => decide (f.tx ≤ kk)), full_history := false } = db.with_datoms.filter (fun f => decide (f.tx ≤ kk)) := rfl
      have hrt : Db.remote_tx_max { remote := db.remote, tx_min := -1, with_datoms := db.with_datoms.filter (fun f => decide (f.tx ≤ kk)), full_history := false } = db.remote_tx_max := rfl
      have hsub : List.Sublist
          (db.remoteFacts ++ db.with_datoms.filter (fun f => decide (f.tx ≤ kk)))
          (db.remoteFacts ++ db.with_datoms) :=
        (List.Sublist.refl _).append (List.filter_sublist _)
      have hWF' : DbWF { remote := db.remote, tx_min := -1, with_datoms := db.with_datoms.filter (fun f => decide (f.tx ≤ kk)), full_history := false } := by
        unfold DbWF
        rw [hrf, hwd, hrt]
        refine ⟨hid.sublist hsub, htx.sublist hsub, ?_, ?_⟩
        · intro d hd
          exact he d (hsub.mem hd)
        · intro d hd
          exact hov d (List.mem_of_mem_filter hd)
      rw [all_facts_eq _ hWF', hrf, hwd, hdbeq, List.filter_append]
      congr 1
      symm
      rw [List.filter_eq_self]
      intro d hd
      have h1 : d.tx ≤ db.remote_tx_max := remoteFacts_tx_le db d hd
      simp only [decide_eq_true_eq]
      omega
    · rw [if_neg hk2]
      cases hr : db.remote with
      | none =>
        simp only [Option.map_none']
        refine ⟨_, rfl, ?_, htake⟩
        have hrfn : db.remoteFacts = [] := by unfold Db.remoteFacts; rw [hr]
        have hrf : Db.remoteFacts { remote := none, tx_min := -1, with_datoms := [], full_history := false } = [] := rfl
        have hwd : Db.with_datoms { remote := none, tx_min := -1, with_datoms := ([] : List Datom), full_history := false } = [] := rfl
        have hWF' : DbWF { remote := none, tx_min := -1, with_datoms := [], full_history := false } := by
          unfold DbWF
          rw [hrf, hwd]
          refine ⟨by simp, by simp, by simp, ?_⟩
          intro d hd
          cases hd
        rw [all_facts_eq _ hWF', hrf, hwd, hdbeq, hrfn]
        have hrt : db.remote_tx_max = -1 := by unfold Db.remote_tx_max; rw [hr]
        symm
        simp only [List.nil_append, List.append_nil, List.filter_eq_nil_iff]
        intro d hd
        have := hov d hd
        rw [hrt] at this
        simp only [decide_eq_true_eq]
        omega
      | some r =>
        have hk2' : kk ≤ r.tx_max := by
          have : db.remote_tx_max = r.tx_max := by unfold Db.remote_tx_max; rw [hr]
          omega
        simp only [Option.map_some']
        refine ⟨_, rfl, ?_, htake⟩
        have hrfo : db.remoteFacts = r.facts := by unfold Db.remoteFacts; rw [hr]
        have hrf : Db.remoteFacts { remote := some { log := r.log, tx_max := kk }, tx_min := -1, with_datoms := [], full_history := false } = r.facts.filter (fun d => decide (d.tx ≤ kk)) := by
          unfold Db.remoteFacts
          exact remoteFacts_narrow r kk hk2'
        have hwd : Db.with_datoms { remote := some { log := r.log, tx_max := kk }, tx_min := -1, with_datoms := ([] : List Datom), full_history := false } = [] := rfl
        have hsub : List.Sublist
            (r.facts.filter (fun d => decide (d.tx ≤ kk)) ++ ([] : List Datom))
            (db.remoteFacts ++ db.with_datoms) := by
          rw [List.append_nil, hrfo]
          exact List.Sublist.trans (List.filter_sublist _) (List.sublist_append_left _ _)
        have hWF' : DbWF { remote := some { log := r.log, tx_max := kk }, tx_min := -1, with_datoms := [], full_history := false } := by
          unfold DbWF
          rw [hrf, hwd]
          refine ⟨hid.sublist hsub, htx.sublist hsub, ?_, ?_⟩
          · intro d hd
            exact he d (hsub.mem hd)
          · intro d hd
            cases hd
        rw [all_facts_eq _ hWF', hrf, hwd, hdbeq, hrfo, List.filter_append,
          List.append_nil]
        have hnil : db.with_datoms.filter (fun d => decide (d.tx ≤ kk)) = [] := by
          rw [List.filter_eq_nil_iff]
          intro d hd
          have h1 := hov d hd
          have h2 : db.remote_tx_max = r.tx_max := by unfold Db.remote_tx_max; rw [hr]
          simp only [decide_eq_true_eq]
          omega
        rw [hnil, List.append_nil]
  refine ⟨main k, ?_, ?_⟩
  · intro db' hok
    obtain ⟨db'', hok'', heq'', _⟩ := main db.tx_max (le_refl db.tx_max)
    rw [hok] at hok''
    have hdb : db' = db'' := by
      simpa using hok''
    subst hdb
    rw [heq'']
    rw [List.filter_eq_self]
    intro d hd
    have := tx_le_tx_max db ⟨hid, htx, he, hov⟩ d (by rw [← hdbeq]; exact hd)
    simpa using this
  · intro hfut
    unfold Db.as_of
    rw [if_pos hfut]

/-- Witness for C3 at the concrete database `dbW` (`tx_max = 3`): cutting at
transaction 2 keeps the remote prefix, cutting at `tx_max` is the identity,
and 4 is in the future. -/
theorem as_of_spec_witness :
    ((2 : Int) ≤ dbW.tx_max → ∃ db', dbW.as_of 2 = .ok db' ∧
      db'.all_facts = (dbW.all_facts).filter (fun d => decide (d.tx ≤ 2)) ∧
      (dbW.all_facts).filter (fun d => decide (d.tx ≤ 2)) =
        (dbW.all_facts).takeWhile (fun d => decide (d.tx ≤ 2))) ∧
    (∀ db', dbW.as_of dbW.tx_max = .ok db' → db'.all_facts = dbW.all_facts) ∧
    (dbW.tx_max < 2 → dbW.as_of 2 =
      .error (.valueError "cannot travel into the future")) :=
  as_of_spec dbW (by refine ⟨?_, ?_, ?_, ?_⟩ <;> decide) 2

/-- C6: `Connection.transact` writes nothing when any stage raises: if
assembling or validating the transaction errors, the backend collection
returned (the first component) is exactly the pre-call state, so
`all_facts` of a database value fetched afterwards is unchanged. -/
theorem transact_no_write_on_error (n : Nat) (state : List Datom) (time : Int)
    (facts : List StagedFact) (err : Err)
    (h : (transact n state time facts).2 = .error err) :
    (transact n state time facts).1 = state ∧
    (connDb (transact n state time facts).1).all_facts =
      (connDb state).all_facts := by
  unfold transact at h ⊢
  dsimp only at h ⊢
  cases hd : (connDb state).transaction_data
      (getAttrDefF n (connDb state)) time facts with
  | error e =>
    exact ⟨rfl, rfl⟩
  | ok p =>
    obtain ⟨tx_data, temp_ids⟩ := p
    rw [hd] at h
    dsimp only at h ⊢
    cases hv : (connDb state).validate_transaction n tx_data with
    | error e =>
      exact ⟨rfl, rfl⟩
    | ok lst =>
      rw [hv] at h
      simp at h

/-- Witness for C6: transacting an assert on the undefined attribute
`foo/bar` into an empty backend fails validation and leaves the collection
empty. -/
theorem transact_no_write_on_error_witness :
    (transact 2 [] 0 [⟨.enone, "foo/bar", .vStr "x", true⟩]).1 = [] ∧
    (connDb (transact 2 [] 0 [⟨.enone, "foo/bar", .vStr "x", true⟩]).1).all_facts =
      (connDb []).all_facts :=
  transact_no_write_on_error 2 [] 0 [⟨.enone, "foo/bar", .vStr "x", true⟩]
    (.valueError "attribute is not defined") (by rfl)

/-- Overwriting key `b` in place leaves lookups of a different key `a`
unchanged (the map branch of `dictSet`). -/
theorem dictGet_map_set (b a : String) (x : AttrVal)
    (hne : (b == a) = false) (d : EntityData) :
    dictGet (d.map (fun p => if p.1 == b then (b, x) else p)) a = dictGet d a := by
  induction d with
  | nil => rfl
  | cons p rest ih =>
    unfold dictGet at ih ⊢
    simp only [List.map_cons, List.find?]
    by_cases hb : (p.1 == b) = true
    · have hp : p.1 = b := by simpa using hb
      rw [if_pos hb]
      have hpa : (p.1 == a) = false := by rw [hp]; exact hne
      simp only [hne, hpa]
      exact ih
    · rw [if_neg hb]
      cases hpa : (p.1 == a) with
      | true => simp [hpa]
      | false => simpa [hpa] using ih

/-- Appending a binding for a different key `b` leaves lookups of `a`
unchanged. -/
theorem dictGet_append_single (d : EntityData) (b : String) (x : AttrVal)
    (a : String) (hne : (b == a) = false) :
    dictGet (d ++ [(b, x)]) a = dictGet d a := by
  unfold dictGet
  rw [List.find?_append]
  cases hfd : d.find? (fun p => p.1 == a) with
  | some p => simp
  | none => simp [List.find?, hne]

/-- `dictSet` on key `b` leaves lookups of a different key `a` unchanged. -/
theorem dictGet_set_ne (d : EntityData) (b a : String) (x : AttrVal)
    (hne : (b == a) = false) :
    dictGet (dictSet d b x) a = dictGet d a := by
  unfold dictSet
  split
  · exact dictGet_map_set b a x hne d
  · exact dictGet_append_single d b x a hne

/-- `dictPushMany` on key `b` leaves lookups of a different key `a`
unchanged. -/
theorem dictGet_pushMany_ne (d d' : EntityData) (b : String) (w : Value)
    (a : String) (hne : (b == a) = false) (h : dictPushMany d b w = .ok d') :
    dictGet d' a = dictGet d a := by
  unfold dictPushMany at h
  cases hg : dictGet d b with
  | none =>
    rw [hg] at h
    simp only [Except.ok.injEq] at h
    rw [← h]
    exact dictGet_append_single d b _ a hne
  | some av =>
    rw [hg] at h
    cases av with
    | one w' => exact absurd h (by simp)
    | many vs =>
      simp only [Except.ok.injEq] at h
      rw [← h]
      exact dictGet_set_ne d b a _ hne

/-- An attribute that appears neither in the starting dict nor among the
active pairs is absent from the dict `_active_facts_to_dict` builds. -/
theorem activeToDict_key_none (gad : Gad) (a : String) :
    ∀ (A : List (String × Value)) (d out : EntityData),
      (∀ w, (a, w) ∉ A) → dictGet d a = none →
      activeToDict gad A d = .ok out → dictGet out a = none := by
  intro A
  induction A with
  | nil =>
    intro d out _ hd hout
    unfold activeToDict at hout
    simp only [Except.ok.injEq] at hout
    rwa [← hout]
  | cons p rest ih =>
    intro d out hnot hd hout
    obtain ⟨b, w⟩ := p
    have hneq : b ≠ a := by
      intro hba
      subst hba
      exact hnot w (List.mem_cons_self _ _)
    have hba : (b == a) = false := by simp [hneq]
    unfold activeToDict at hout
    cases hg : gad b with
    | error err =>
      simp only [hg] at hout
      exact absurd hout (by simp)
    | ok attr =>
      simp only [hg] at hout
      cases hc : attr.cardinality with
      | one =>
        simp only [hc] at hout
        refine ih (dictSet d b (.one w)) out ?_ ?_ hout
        · intro w' hw'
          exact hnot w' (List.mem_cons_of_mem _ hw')
        · rw [dictGet_set_ne d b a _ hba]
          exact hd
      | many =>
        simp only [hc] at hout
        cases hp : dictPushMany d b w with
        | error err =>
          simp only [hp] at hout
          exact absurd hout (by simp)
        | ok d' =>
          simp only [hp] at hout
          refine ih d' out ?_ ?_ hout
          · intro w' hw'
            exact hnot w' (List.mem_cons_of_mem _ hw')
          · rw [dictGet_pushMany_ne d d' b w a hba hp]
            exact hd

/-- C8: the retract round-trip.  Appending an assert of `(e, a, v)` and then
its retract to an entity's datoms — which is exactly what two successive
`_apply_datom` calls produce (second conjunct) — leaves `get(e)` unchanged,
provided `(a, v)` was not already active (the condition cardinality
validation guarantees before a successful assert, for both cardinalities);
and when no pair on `a` at all was active before (the cardinality-one
condition), the key `a` is absent from the resulting entity dict. -/
theorem retract_round_trip (gad : Gad) (fs : List Datom) (e : Int) (a : String)
    (v : Value) (id1 id2 tx1 tx2 : Int) (A : List (String × Value))
    (hA : replayActive (projOps fs) = some A) (hv : (a, v) ∉ A) :
    getFromFacts gad
        (fs ++ [⟨id1, e, a, v, tx1, true⟩, ⟨id2, e, a, v, tx2, false⟩]) =
      getFromFacts gad fs ∧
    (∀ db : Db, db.entityFacts e = fs →
      ((db.apply_datom ⟨id1, e, a, v, tx1, true⟩).apply_datom
          ⟨id2, e, a, v, tx2, false⟩).entityFacts e =
        fs ++ [⟨id1, e, a, v, tx1, true⟩, ⟨id2, e, a, v, tx2, false⟩]) ∧
    ((∀ w, (a, w) ∉ A) → ∀ out,
      getFromFacts gad
          (fs ++ [⟨id1, e, a, v, tx1, true⟩, ⟨id2, e, a, v, tx2, false⟩]) =
        .ok out →
      dictGet out a = none) := by
  have herase : (A ++ [(a, v)]).erase (a, v) = A := by
    rw [List.erase_append_right _ hv]
    simp
  have hstep : replayFrom A [(a, v, true), (a, v, false)] = some A := by
    simp only [replayFrom, replayStep]
    rw [if_pos (by simp : (a, v) ∈ A ++ [(a, v)])]
    simp only [replayFrom, herase]
  have hproj : projOps (fs ++ [⟨id1, e, a, v, tx1, true⟩, ⟨id2, e, a, v, tx2, false⟩]) =
      projOps fs ++ [(a, v, true), (a, v, false)] := by
    simp [projOps]
  have hmain : getFromFacts gad
      (fs ++ [⟨id1, e, a, v, tx1, true⟩, ⟨id2, e, a, v, tx2, false⟩]) =
      getFromFacts gad fs := by
    unfold getFromFacts
    rw [hproj]
    simp only [replayActive] at hA
    simp only [replayActive, replayFrom_append, hA, hstep]
  refine ⟨hmain, ?_, ?_⟩
  · intro db hdb
    rw [← hdb]
    unfold Db.apply_datom Db.entityFacts
    simp [List.filter_append, List.append_assoc]
    rfl
  · intro hnone out hout
    rw [hmain] at hout
    unfold getFromFacts replayActive at hout
    unfold replayActive at hA
    rw [hA] at hout
    exact activeToDict_key_none gad a A [] out hnone rfl hout

/-- Witness for C8: one prior datom `(0, "q", 5)`; assert then retract of
`(0, "p", 7)` is the identity on `get(0)` and leaves `"p"` absent. -/
theorem retract_round_trip_witness :
    getFromFacts gadP
        ([⟨0, 0, "q", .vInt 5, 1, true⟩] ++
          [⟨2, 0, "p", .vInt 7, 3, true⟩, ⟨4, 0, "p", .vInt 7, 3, false⟩]) =
      getFromFacts gadP [⟨0, 0, "q", .vInt 5, 1, true⟩] ∧
    (∀ db : Db, db.entityFacts 0 = [⟨0, 0, "q", .vInt 5, 1, true⟩] →
      ((db.apply_datom ⟨2, 0, "p", .vInt 7, 3, true⟩).apply_datom
          ⟨4, 0, "p", .vInt 7, 3, false⟩).entityFacts 0 =
        [⟨0, 0, "q", .vInt 5, 1, true⟩] ++
          [⟨2, 0, "p", .vInt 7, 3, true⟩, ⟨4, 0, "p", .vInt 7, 3, false⟩]) ∧
    ((∀ w, ("p", w) ∉ [("q", Value.vInt 5)]) → ∀ out,
      getFromFacts gadP
          ([⟨0, 0, "q", .vInt 5, 1, true⟩] ++
            [⟨2, 0, "p", .vInt 7, 3, true⟩, ⟨4, 0, "p", .vInt 7, 3, false⟩]) =
        .ok out →
      dictGet out "p" = none) :=
  retract_round_trip gadP [⟨0, 0, "q", .vInt 5, 1, true⟩] 0 "p" (.vInt 7) 2 4 3 3
    [("q", .vInt 5)] (by rfl) (by decide)

/-- Replay over operations that all carry the pair `(a, v)` keeps every
active pair equal to `(a, v)`. -/
theorem replayFrom_const (a : String) (v : Value) :
    ∀ (l : List (String × Value × Bool)) (A0 A : List (String × Value)),
      (∀ t ∈ l, t.1 = a ∧ t.2.1 = v) → (∀ p ∈ A0, p = (a, v)) →
      replayFrom A0 l = some A → ∀ p ∈ A, p = (a, v) := by
  intro l
  induction l with
  | nil =>
    intro A0 A _ h0 hA
    unfold replayFrom at hA
    simp only [Option.some.injEq] at hA
    rwa [← hA]
  | cons t rest ih =>
    intro A0 A hl h0 hA
    obtain ⟨b, w, op⟩ := t
    obtain ⟨hb, hw⟩ := hl (b, w, op) (List.mem_cons_self _ _)
    simp only at hb hw
    subst hb
    subst hw
    unfold replayFrom at hA
    cases op with
    | true =>
      simp only [replayStep] at hA
      refine ih (A0 ++ [(b, w)]) A
        (fun t' ht' => hl t' (List.mem_cons_of_mem _ ht')) ?_ hA
      intro p hp
      rcases List.mem_append.mp hp with h | h
      · exact h0 p h
      · simpa using h
    | false =>
      simp only [replayStep] at hA
      by_cases hmem : (b, w) ∈ A0
      · rw [if_pos hmem] at hA
        refine ih (A0.erase (b, w)) A
          (fun t' ht' => hl t' (List.mem_cons_of_mem _ ht')) ?_ hA
        intro p hp
        exact h0 p (List.mem_of_mem_erase hp)
      · rw [if_neg hmem] at hA
        simp at hA

/-- Folding a run of `(a, v)` pairs into the singleton dict `a ↦ v` keeps
it, under a cardinality-one definition for `a`. -/
theorem activeToDict_const_go (gad : Gad) (attr : Attr) (a : String) (v : Value)
    (hgad : gad a = .ok attr) (hcard : attr.cardinality = .one) :
    ∀ A, (∀ p ∈ A, p = (a, v)) →
      activeToDict gad A [(a, AttrVal.one v)] = .ok [(a, AttrVal.one v)] := by
  intro A
  induction A with
  | nil => intro _; rfl
  | cons p rest ih =>
    intro hp
    have hpa : p = (a, v) := hp p (List.mem_cons_self _ _)
    subst hpa
    have hset : dictSet [(a, AttrVal.one v)] a (AttrVal.one v) =
        [(a, AttrVal.one v)] := by
      simp [dictSet, List.find?]
    simp only [activeToDict, hgad, hcard, hset]
    exact ih (fun q hq => hp q (List.mem_cons_of_mem _ hq))

/-- The entity dict of a nonempty all-`(a, v)` active list under a
cardinality-one definition is the singleton `a ↦ v`. -/
theorem activeToDict_const (gad : Gad) (attr : Attr) (a : String) (v : Value)
    (hgad : gad a = .ok attr) (hcard : attr.cardinality = .one) :
    ∀ A, (∀ p ∈ A, p = (a, v)) → A ≠ [] →
      activeToDict gad A [] = .ok [(a, AttrVal.one v)] := by
  intro A hA hne
  cases A with
  | nil => exact absurd rfl hne
  | cons p rest =>
    have hpa : p = (a, v) := hA p (List.mem_cons_self _ _)
    subst hpa
    have hset : dictSet [] a (AttrVal.one v) = [(a, AttrVal.one v)] := by
      simp [dictSet, List.find?]
    simp only [activeToDict, hgad, hcard, hset]
    exact activeToDict_const_go gad attr a v hgad hcard rest
      (fun q hq => hA q (List.mem_cons_of_mem _ hq))

/-- `getFromFacts` of datoms that all carry `(a, v)`, under a
cardinality-one definition for `a`: an empty replayed active list yields the
empty dict, a nonempty one the singleton `a ↦ v`. -/
theorem getFromFacts_const (gad : Gad) (attr : Attr) (a : String) (v : Value)
    (hgad : gad a = .ok attr) (hcard : attr.cardinality = .one)
    (fs : List Datom) (hconst : ∀ f ∈ fs, f.a = a ∧ f.v = v)
    (A : List (String × Value))
    (hA : replayActive (projOps fs) = some A) :
    (A = [] → getFromFacts gad fs = .ok []) ∧
    (A ≠ [] → getFromFacts gad fs = .ok [(a, AttrVal.one v)]) := by
  have hAconst : ∀ p ∈ A, p = (a, v) := by
    refine replayFrom_const a v (projOps fs) [] A ?_ (by simp) hA
    intro t ht
    unfold projOps at ht
    obtain ⟨f, hf, hft⟩ := List.mem_map.mp ht
    obtain ⟨h1, h2⟩ := hconst f hf
    rw [← hft]
    exact ⟨h1, h2⟩
  constructor
  · intro hnil
    subst hnil
    unfold getFromFacts
    rw [hA]
    rfl
  · intro hne
    unfold getFromFacts
    rw [hA]
    exact activeToDict_const gad attr a v hgad hcard A hAconst hne

/-- An entity outside the `(a, v)` candidate set has no `(a, v)` datoms. -/
theorem not_candidate_filter_nil (db : Db) (a : String) (v : Value) (e : Int)
    (he : e ∉ candidateEntities db a v) :
    (db.attrValFacts a v).filter (fun f => f.e == e) = [] := by
  rw [List.filter_eq_nil_iff]
  intro f hf hfe
  apply he
  unfold candidateEntities
  rw [List.mem_dedup]
  exact List.mem_map.mpr ⟨f, hf, by simpa using hfe⟩

/-- Holding `(a, v)` active forces membership in the candidate set. -/
theorem holdsActive_mem_candidates (db : Db) (a : String) (v : Value) (e : Int)
    (h : holdsActive db e a v) : e ∈ candidateEntities db a v := by
  by_contra he
  obtain ⟨A, hA, hne⟩ := h
  rw [not_candidate_filter_nil db a v e he] at hA
  unfold projOps replayActive replayFrom at hA
  simp only [List.map_nil, Option.some.injEq] at hA
  exact hne hA.symm

/-- The `_lookup_direct` loop over `(a, v)` candidates of a cardinality-one
attribute: it never errors when each scanned entity's restricted replay
succeeds, returns `none` exactly when every scanned entity's restricted
replay is empty, and a hit is a scanned entity with a nonempty restricted
replay. -/
theorem lookup_direct_go_spec (gad : Gad) (attr : Attr) (a : String) (v : Value)
    (cds : List Datom) (hconst : ∀ f ∈ cds, f.a = a ∧ f.v = v)
    (hgad : gad a = .ok attr) (hcard : attr.cardinality = .one) :
    ∀ es : List Int,
      (∀ e ∈ es, ∃ A,
        replayActive (projOps (cds.filter (fun f => f.e == e))) = some A) →
      (∃ r, lookup_direct_go gad a v cds es = .ok r) ∧
      (lookup_direct_go gad a v cds es = .ok none ↔
        ∀ e ∈ es, ∀ A,
          replayActive (projOps (cds.filter (fun f => f.e == e))) = some A →
            A = []) ∧
      (∀ e, lookup_direct_go gad a v cds es = .ok (some e) →
        e ∈ es ∧ ∃ A,
          replayActive (projOps (cds.filter (fun f => f.e == e))) = some A ∧
            A ≠ []) := by
  intro es
  induction es with
  | nil =>
    intro _
    refine ⟨⟨none, rfl⟩, ?_, ?_⟩
    · constructor
      · intro _ e he
        cases he
      · intro _
        rfl
    · intro e he
      exact absurd he (by simp [lookup_direct_go])
  | cons e es ih =>
    intro hrep
    obtain ⟨A, hA⟩ := hrep e (List.mem_cons_self _ _)
    have hsubconst : ∀ f ∈ cds.filter (fun f => f.e == e), f.a = a ∧ f.v = v :=
      fun f hf => hconst f (List.mem_of_mem_filter hf)
    obtain ⟨hgf0, hgf1⟩ :=
      getFromFacts_const gad attr a v hgad hcard _ hsubconst A hA
    have ihs := ih (fun e' he' => hrep e' (List.mem_cons_of_mem _ he'))
    by_cases hne : A = []
    · have hskip : lookup_direct_go gad a v cds (e :: es) =
          lookup_direct_go gad a v cds es := by
        simp only [lookup_direct_go, hgf0 hne, dictGet, List.find?_nil,
          Option.map_none']
      refine ⟨?_, ?_, ?_⟩
      · obtain ⟨r, hr⟩ := ihs.1
        exact ⟨r, by rw [hskip]; exact hr⟩
      · rw [hskip, ihs.2.1]
        constructor
        · intro h e' he' A' hA'
          rcases List.mem_cons.mp he' with rfl | hmem
          · rw [hA] at hA'
            rw [← Option.some.inj hA']
            exact hne
          · exact h e' hmem A' hA'
        · intro h e' he'
          exact h e' (List.mem_cons_of_mem _ he')
      · intro e₂ h
        rw [hskip] at h
        obtain ⟨hmem, hex⟩ := ihs.2.2 e₂ h
        exact ⟨List.mem_cons_of_mem _ hmem, hex⟩
    · have hhit : lookup_direct_go gad a v cds (e :: es) = .ok (some e) := by
        simp only [lookup_direct_go, hgf1 hne]
        simp [dictGet, List.find?, avEqVal]
      refine ⟨⟨some e, hhit⟩, ?_, ?_⟩
      · rw [hhit]
        constructor
        · intro h
          exact absurd h (by simp)
        · intro h
          exact absurd (h e (List.mem_cons_self _ _) A hA) hne
      · intro e₂ h
        rw [hhit] at h
        simp only [Except.ok.injEq, Option.some.injEq] at h
        subst h
        exact ⟨List.mem_cons_self _ _, A, hA, hne⟩

/-- C5: uniqueness validation.  For an attribute whose `unique` is identity
or value (necessarily cardinality one, as the `unique_cardinality` validator
enforces), a retract always passes; an assert of `v` passes exactly when no
entity holds `(a, v)` active — `validate_uniqueness` itself cannot see the
asserting entity, so under the pipeline invariant that the asserting entity
`e0` does not hold `(a, v)` (which a passed cardinality check guarantees),
passing is exactly the absence of an *other* holder; and after a passed
check, applying the assert leaves the asserting entity as the only possible
holder of `(a, v)`.  The replay hypothesis `hrep` says each candidate's
`(a, v)` history replays without the `list.remove` `ValueError`. -/
theorem validate_uniqueness_spec (gad : Gad) (db : Db) (attr : Attr)
    (a : String) (v : Value)
    (hgad : gad a = .ok attr) (hident : attr.ident = a)
    (huniq : attr.unique.isSome = true) (hcard : attr.cardinality = .one)
    (hrep : ∀ e ∈ candidateEntities db a v, ∃ A,
      replayActive (projOps ((db.attrValFacts a v).filter (fun f => f.e == e))) =
        some A) :
    attr.validate_uniqueness gad v db false = .ok () ∧
    (attr.validate_uniqueness gad v db true = .ok () ↔
      ∀ e, ¬ holdsActive db e a v) ∧
    (∀ e0 : Int, ¬ holdsActive db e0 a v →
      (attr.validate_uniqueness gad v db true = .ok () ↔
        ¬ ∃ e, e ≠ e0 ∧ holdsActive db e a v)) ∧
    (attr.validate_uniqueness gad v db true = .ok () →
      ∀ dd : Datom, dd.a = a → dd.v = v →
        ∀ e, holdsActive (db.apply_datom dd) e a v → e = dd.e) := by
  have hconstc : ∀ f ∈ db.attrValFacts a v, f.a = a ∧ f.v = v := by
    intro f hf
    unfold Db.attrValFacts at hf
    rcases List.mem_append.mp hf with h | h <;>
    · have := List.of_mem_filter h
      simp only [Bool.and_eq_true, beq_iff_eq] at this
      exact this
  obtain ⟨⟨r, hr⟩, hiff, hsome⟩ :=
    lookup_direct_go_spec gad attr a v (db.attrValFacts a v) hconstc hgad hcard
      (candidateEntities db a v) hrep
  have hlook : lookup gad db a v = (match r with
      | some e => .ok e
      | none => .error
          (.entityNotFound "no entity found with attribute set to value")) := by
    unfold lookup lookup_direct
    rw [hgad]
    simp only [Attr.is_unique, huniq, if_true, hr]
    cases r <;> rfl
  have hval : attr.validate_uniqueness gad v db true = (match r with
      | some _ => Except.error
          (.valueError
            "cannot set unique attribute: this value is already assigned to an entity")
      | none => Except.ok ()) := by
    unfold Attr.validate_uniqueness
    rw [hident]
    simp only [Bool.true_and, huniq, if_true, hlook]
    cases r <;> rfl
  have hPequiv :
      (∀ e ∈ candidateEntities db a v, ∀ A,
        replayActive (projOps ((db.attrValFacts a v).filter (fun f => f.e == e))) =
          some A → A = []) ↔ (∀ e, ¬ holdsActive db e a v) := by
    constructor
    · intro h e hh
      obtain ⟨A, hA, hAne⟩ := hh
      exact hAne (h e (holdsActive_mem_candidates db a v e ⟨A, hA, hAne⟩) A hA)
    · intro h e he A hA
      by_contra hAne
      exact h e ⟨A, hA, hAne⟩
  have hmain : attr.validate_uniqueness gad v db true = .ok () ↔
      ∀ e, ¬ holdsActive db e a v := by
    rw [hval, ← hPequiv, ← hiff]
    cases r with
    | none => simp [hr]
    | some e₂ =>
      constructor
      · intro h
        exact absurd h (by simp)
      · intro h
        rw [hr] at h
        simp at h
  have happly : ∀ dd : Datom, dd.a = a → dd.v = v → ∀ e : Int,
      (dd.e == e) = false →
      ((db.apply_datom dd).attrValFacts a v).filter (fun f => f.e == e) =
        (db.attrValFacts a v).filter (fun f => f.e == e) := by
    intro dd hda hdv e hde
    unfold Db.apply_datom Db.attrValFacts
    have hrfeq : Db.remoteFacts { remote := db.remote, tx_min := db.tx_min, with_datoms := db.with_datoms ++ [dd], full_history := db.full_history } = db.remoteFacts := rfl
    rw [hrfeq]
    simp [List.filter_append, hda, hdv, hde]
  refine ⟨rfl, hmain, ?_, ?_⟩
  · intro e0 he0
    rw [hmain]
    constructor
    · intro h hex
      obtain ⟨e, _, hh⟩ := hex
      exact h e hh
    · intro h e hh
      rcases eq_or_ne e e0 with rfl | hne
      · exact he0 hh
      · exact h ⟨e, hne, hh⟩
  · intro hok dd hda hdv e he
    by_contra hne
    have hde : (dd.e == e) = false := by
      simp only [beq_eq_false_iff_ne, ne_eq]
      intro hcontra
      exact hne hcontra.symm
    obtain ⟨A, hA, hAne⟩ := he
    rw [happly dd hda hdv e hde] at hA
    exact (hmain.mp hok e) ⟨A, hA, hAne⟩

/-- Witness for C5 at the unique attribute `attrU` and the one-datom
database `dbU`. -/
theorem validate_uniqueness_spec_witness :
    attrU.validate_uniqueness gadU (.vStr "x") dbU false = .ok () ∧
    (attrU.validate_uniqueness gadU (.vStr "x") dbU true = .ok () ↔
      ∀ e, ¬ holdsActive dbU e "u" (.vStr "x")) ∧
    (∀ e0 : Int, ¬ holdsActive dbU e0 "u" (.vStr "x") →
      (attrU.validate_uniqueness gadU (.vStr "x") dbU true = .ok () ↔
        ¬ ∃ e, e ≠ e0 ∧ holdsActive dbU e "u" (.vStr "x"))) ∧
    (attrU.validate_uniqueness gadU (.vStr "x") dbU true = .ok () →
      ∀ dd : Datom, dd.a = "u" → dd.v = .vStr "x" →
        ∀ e, holdsActive (dbU.apply_datom dd) e "u" (.vStr "x") → e = dd.e) :=
  validate_uniqueness_spec gadU dbU attrU "u" (.vStr "x") rfl rfl rfl rfl
    (by
      intro e he
      have hc : candidateEntities dbU "u" (.vStr "x") = [0] := by decide
      rw [hc] at he
      simp only [List.mem_singleton] at he
      subst he
      exact ⟨[("u", .vStr "x")], by decide⟩)
